import Mathlib

/-!
Verification of the Sitzplatz-Manager core: the weekly seat assignment engine
(`logic/assignment_engine.py`), its conflict validator (`logic/validator.py`)
and the entity model (`models/`), shallowly embedded in Lean 4.

Modelling conventions:
- Python dataclasses become structures; `Dict[str, X]` fields become
  association lists `List (String × X)` with first-match lookup (Python dicts
  have unique keys, and insertion order is preserved where it matters).
- Python floats (`x`, `y`, `width`, `height` and the statistics rates) are
  modelled as rationals.
- `str.lower()` is modelled as ASCII lowercasing, and Python string
  comparison as code-point lexicographic comparison on the character list.
- Python's stable `list.sort` is modelled as a stable insertion sort.
- `round(x, 2)` is modelled as rational round-half-to-even at two decimals
  (ignoring binary floating-point representation error).
- Exception messages are modelled as a structured type: the two f-string
  templates of `validate_student_date_range` become two constructors.
-/

/-- Student record from `models/student.py`. `weekly_pattern` maps lowercase
weekday names to availability. -/
structure Student where
  id : String
  name : String
  weekly_pattern : List (String × Bool)
  valid_from : String
  valid_until : String
  requirements : List String
deriving DecidableEq

/-- Seat record from `models/seat.py`. `properties` maps tag names to booleans. -/
structure Seat where
  id : String
  room_id : String
  number : Int
  x : Rat
  y : Rat
  properties : List (String × Bool)
deriving DecidableEq

/-- Room record from `models/room.py`. -/
structure Room where
  id : String
  name : String
  x : Rat
  y : Rat
  width : Rat
  height : Rat
  color : String
deriving DecidableEq

/-- Assignment record from `models/assignment.py`. -/
structure Assignment where
  student_id : String
  seat_id : String
  day : String
  week : String
deriving DecidableEq

/-- ASCII lowercasing, modelling Python's `str.lower()` on the ASCII strings
the engine works with (weekday names, the sentinel "ongoing"). -/
def strLower (s : String) : String := String.mk (s.data.map Char.toLower)

/-- Code-point lexicographic strict comparison on character lists, modelling
Python's `str.__lt__`. -/
def charsLt : List Char → List Char → Bool
  | [], [] => false
  | [], _ :: _ => true
  | _ :: _, [] => false
  | a :: as, b :: bs => if a < b then true else if b < a then false else charsLt as bs

/-- Lookup in an association list modelling `dict.get(key, default)`. -/
def dictGet (l : List (String × Bool)) (key : String) (dflt : Bool) : Bool :=
  ((l.find? (fun p => p.1 == key)).map (fun p => p.2)).getD dflt

/-- Student.is_available_on from `models/student.py`: lowercase the day and
look it up in the weekly pattern, defaulting to unavailable. -/
def Student.is_available_on (s : Student) (day : String) : Bool :=
  dictGet s.weekly_pattern (strLower day) false

/-- Seat.has_property from `models/seat.py`: `properties.get(prop, False)`. -/
def Seat.has_property (t : Seat) (prop : String) : Bool :=
  dictGet t.properties prop false

/-- Room.contains_point from `models/room.py`. -/
def Room.contains_point (r : Room) (px py : Rat) : Bool :=
  decide (r.x ≤ px) && decide (px ≤ r.x + r.width) &&
  decide (r.y ≤ py) && decide (py ≤ r.y + r.height)

/-! ### Date parsing and the student date-range validator -/

/-- Leap-year test as performed by Python's `datetime` (Gregorian rule). -/
def isLeapYear (y : Nat) : Bool := y % 4 == 0 && (y % 100 != 0 || y % 400 == 0)

/-- Number of days in a month, as validated by Python's `datetime` constructor. -/
def daysInMonth (y m : Nat) : Nat :=
  if m == 2 then (if isLeapYear y then 29 else 28)
  else if m == 4 || m == 6 || m == 9 || m == 11 then 30 else 31

/-- Split a character list at every occurrence of a separator character,
modelling Python's `str.split` with a one-character separator. -/
def splitChar (c : Char) : List Char → List (List Char)
  | [] => [[]]
  | a :: as =>
    if a = c then [] :: splitChar c as
    else
      match splitChar c as with
      | [] => [[a]]
      | g :: gs => (a :: g) :: gs

/-- Check that every character is an ASCII digit. -/
def allDigits (cs : List Char) : Bool := cs.all Char.isDigit

/-- Numeric value of an ASCII digit list. -/
def digitsToNat (cs : List Char) : Nat := cs.foldl (fun n c => n * 10 + (c.toNat - 48)) 0

/-- Parsing of `datetime.strptime(s, "%Y-%m-%d")` followed by `datetime`
construction: exactly four year digits, one or two month digits with value
1..12, one or two day digits valid for the month, no leftover input, year at
least 1 (`datetime.MINYEAR`). Any failure raises `ValueError` in Python,
modelled here as `none`. Digits are modelled as ASCII digits. -/
def parseYMD (s : String) : Option (Nat × Nat × Nat) :=
  match splitChar '-' s.data with
  | [ys, ms, ds] =>
    if allDigits ys && (ys.length == 4)
        && allDigits ms && decide (1 ≤ ms.length) && decide (ms.length ≤ 2)
        && allDigits ds && decide (1 ≤ ds.length) && decide (ds.length ≤ 2) then
      let y := digitsToNat ys
      let m := digitsToNat ms
      let d := digitsToNat ds
      if decide (1 ≤ y) && decide (1 ≤ m) && decide (m ≤ 12)
          && decide (1 ≤ d) && decide (d ≤ daysInMonth y m) then
        some (y, m, d)
      else none
    else none
  | _ => none

/-- Strict comparison of parsed dates, matching comparison of Python
`datetime` objects (lexicographic on year, month, day). -/
def dateLt (a b : Nat × Nat × Nat) : Prop :=
  a.1 < b.1 ∨ (a.1 = b.1 ∧ (a.2.1 < b.2.1 ∨ (a.2.1 = b.2.1 ∧ a.2.2 < b.2.2)))

instance (a b : Nat × Nat × Nat) : Decidable (dateLt a b) := by
  unfold dateLt; infer_instance

/-- Non-strict date comparison (the spec's "valid_from ≤ valid_until"). -/
def dateLe (a b : Nat × Nat × Nat) : Prop := dateLt a b ∨ a = b

instance (a b : Nat × Nat × Nat) : Decidable (dateLe a b) := by
  unfold dateLe; infer_instance

/-- Validation outcome messages of `Validator.validate_student_date_range`,
modelling the two distinct f-string templates of the source:
`invalidFormat` stands for "Invalid date format: ..." (carrying the offending
date string, which the wrapped `ValueError` text mentions), `invalidRange`
for "valid_from (...) is after valid_until (...)". -/
inductive DateRangeMsg where
  | invalidFormat (datum : String)
  | invalidRange (vfrom vuntil : String)
deriving DecidableEq

namespace Validator

/-- Validator.validate_student_date_range from `logic/validator.py`: the
sentinel "ongoing" (case-insensitive) is always valid; otherwise parse
`valid_from` then `valid_until` (first `ValueError` wins) and compare. The
function is total: the only exception the source can raise is the
`ValueError` it catches itself. -/
def validate_student_date_range (st : Student) : Bool × Option DateRangeMsg :=
  if strLower st.valid_until == "ongoing" then (true, none)
  else
    match parseYMD st.valid_from with
    | none => (false, some (DateRangeMsg.invalidFormat st.valid_from))
    | some dfrom =>
      match parseYMD st.valid_until with
      | none => (false, some (DateRangeMsg.invalidFormat st.valid_until))
      | some duntil =>
        if dateLt duntil dfrom then
          (false, some (DateRangeMsg.invalidRange st.valid_from st.valid_until))
        else (true, none)

end Validator

/-- Inlined pair-overlap test of `Validator.validate_room_overlap` (the
negated disjunction in the source): two rectangles overlap unless one is
completely to the left of or above the other. -/
def roomsOverlap (room1 room2 : Room) : Bool :=
  !(decide (room1.x + room1.width ≤ room2.x) ||
    decide (room2.x + room2.width ≤ room1.x) ||
    decide (room1.y + room1.height ≤ room2.y) ||
    decide (room2.y + room2.height ≤ room1.y))

/-- Nested pair loop of `Validator.validate_room_overlap`: for each room, scan
the rooms after it and record the id pair of every overlapping pair. -/
def overlapConflicts : List Room → List (String × String)
  | [] => []
  | room1 :: rest =>
    (rest.filter (fun room2 => roomsOverlap room1 room2)).map (fun room2 => (room1.id, room2.id))
      ++ overlapConflicts rest

/-- Mathematical overlap predicate, following the spec's words: the two
axis-aligned rectangles share interior in both axes (shared edges do not
count). Compared below with the source's negated-disjunction test. -/
def rectanglesOverlap (r1 r2 : Room) : Prop :=
  r1.x < r2.x + r2.width ∧ r2.x < r1.x + r1.width ∧
  r1.y < r2.y + r2.height ∧ r2.y < r1.y + r1.height

namespace Validator

/-- Validator.validate_room_overlap from `logic/validator.py`. -/
def validate_room_overlap (rooms : List Room) : Bool × List (String × String) :=
  let conflicts := overlapConflicts rooms
  (conflicts.length == 0, conflicts)

end Validator


/-! ### Assignment engine definitions -/

/-- Fixed weekday cycle used by `assign_week` and
`get_assignment_statistics` (lowercase, as used in the models). -/
def weekDayNames : List String :=
  ["monday", "tuesday", "wednesday", "thursday", "friday", "saturday", "sunday"]

/-- Stable insertion step: `x` is placed after every element `y` with
`le y x`, so equal elements keep their original relative order. -/
def insertBy {a : Type} (le : a → a → Bool) (x : a) : List a → List a
  | [] => [x]
  | y :: ys => if le y x then y :: insertBy le x ys else x :: y :: ys

/-- Stable insertion sort, modelling Python's stable `sorted`/`list.sort`:
elements are inserted left to right, so ties keep input order. -/
def sortBy {a : Type} (le : a → a → Bool) (l : List a) : List a :=
  l.foldl (fun acc x => insertBy le x acc) []

/-- Lookup in the dict comprehension
`{a.student_id: a.seat_id for a in previous_assignments}`: the last
assignment for a student wins, absent student gives `None`. -/
def lookupPrevSeat (previous_assignments : List Assignment) (sid : String) : Option String :=
  (previous_assignments.reverse.find? (fun a => a.student_id == sid)).map (fun a => a.seat_id)

/-- AssignmentEngine.get_priority_sort_key: students with a previous seat
sort first (priority 0), ties broken alphabetically by name. -/
def get_priority_sort_key (student : Student) (previous_assignments : List Assignment) :
    Nat × String :=
  (if (lookupPrevSeat previous_assignments student.id).isSome then 0 else 1, student.name)

/-- Python tuple comparison `(priority, name) <= (priority, name)` used by
`sorted`: lexicographic, names compared by code points. -/
def tupleKeyLe (ka kb : Nat × String) : Bool :=
  decide (ka.1 < kb.1) || (ka.1 == kb.1 && !(charsLt kb.2.data ka.2.data))

/-- Per-student lookup step of `assign_day`:
`prev_seat_id = prev_assignment_map.get(student.id)` followed by
`if prev_seat_id: prev_seat = next((s for s in available_seats if ...), None)`.
Python truthiness makes both `None` and the empty string fall through. -/
def prevSeatInPool (previous_assignments : List Assignment) (available_seats : List Seat)
    (student : Student) : Option Seat :=
  match lookupPrevSeat previous_assignments student.id with
  | none => none
  | some sid => if sid == "" then none else available_seats.find? (fun t => t.id == sid)

/-- Requirement-satisfaction count of one seat for one student, the source's
`match_count = sum(1 for req in student.requirements if seat.has_property(req))`. -/
def matchCount (student : Student) (seat : Seat) : Nat :=
  (student.requirements.filter (fun req => seat.has_property req)).length

/-- Stable descending sort on `(match_count, seat)` pairs, modelling
`partial_matches.sort(key=lambda x: x[0], reverse=True)` (Python's sort is
stable, so equal counts keep pool order). -/
def sortPairsDesc (l : List (Nat × Seat)) : List (Nat × Seat) :=
  sortBy (fun p q => decide (q.1 ≤ p.1)) l

/-- First pair attaining the maximal count, scanning left to right (a later
pair replaces the current best only when strictly greater). Used to
characterise the head of `sortPairsDesc`. -/
def firstMaxPair (a : Nat × Seat) : List (Nat × Seat) → Nat × Seat
  | [] => a
  | y :: ys => if a.1 < y.1 then firstMaxPair y ys else firstMaxPair a ys

namespace AssignmentEngine

/-- Steps 2-4 of AssignmentEngine.find_seat_for_student (the code after the
previous-seat check): a seat satisfying all requirements (first in pool
order), else the best partial match (stable descending sort by count), else
any seat (`available_seats[0]`). -/
def findSeatSearch (student : Student) (available_seats : List Seat) : Option Seat :=
  if !student.requirements.isEmpty then
    match available_seats.filter (fun seat =>
        student.requirements.all (fun req => seat.has_property req)) with
    | seat :: _ => some seat
    | [] =>
      let partials := available_seats.filterMap (fun seat =>
        let c := matchCount student seat
        if 0 < c then some (c, seat) else none)
      match sortPairsDesc partials with
      | p :: _ => some p.2
      | [] => available_seats.head?
  else available_seats.head?

/-- AssignmentEngine.find_seat_for_student from `logic/assignment_engine.py`:
none when the pool is empty, the previous seat when it is still in the pool,
else the requirement search of `findSeatSearch`. -/
def find_seat_for_student (student : Student) (available_seats : List Seat)
    (previous_seat : Option Seat) : Option Seat :=
  if available_seats.isEmpty then none
  else if (match previous_seat with
           | some p => available_seats.contains p
           | none => false) then previous_seat
  else findSeatSearch student available_seats

/-- Main loop of AssignmentEngine.assign_day: process the sorted students
over a shrinking pool; an assigned seat is removed from the pool
(`available_seats.remove`, first occurrence), an unseatable student's id is
appended to the conflicts. -/
def assignDayLoop (day week : String) (previous_assignments : List Assignment) :
    List Student → List Seat → List Assignment × List String
  | [], _ => ([], [])
  | student :: rest, available_seats =>
    match find_seat_for_student student available_seats
        (prevSeatInPool previous_assignments available_seats student) with
    | some seat =>
      let r := assignDayLoop day week previous_assignments rest (available_seats.erase seat)
      (⟨student.id, seat.id, day, week⟩ :: r.1, r.2)
    | none =>
      let r := assignDayLoop day week previous_assignments rest available_seats
      (r.1, student.id :: r.2)

/-- AssignmentEngine.assign_day from `logic/assignment_engine.py`: filter the
students available on the day, sort by priority key, then run the
assignment loop over the full seat list. -/
def assign_day (students : List Student) (seats : List Seat) (day week : String)
    (previous_assignments : List Assignment) : List Assignment × List String :=
  let available_students := students.filter (fun s => s.is_available_on day)
  let sorted_students := sortBy (fun s1 s2 =>
    tupleKeyLe (get_priority_sort_key s1 previous_assignments)
      (get_priority_sort_key s2 previous_assignments)) available_students
  assignDayLoop day week previous_assignments sorted_students seats

/-- AssignmentEngine.assign_week from `logic/assignment_engine.py`: iterate
the fixed weekday cycle, looking up the same weekday's previous assignments
(`previous_assignments.get(day, [])`) and collecting per-day results in
insertion order (Python dicts preserve it). -/
def assign_week (students : List Student) (seats : List Seat) (week : String)
    (previous_assignments : List (String × List Assignment)) :
    List (String × List Assignment) × List (String × List String) :=
  weekDayNames.foldl (fun acc day =>
    let prev_day := ((previous_assignments.find? (fun p => p.1 == day)).map (fun p => p.2)).getD []
    let r := assign_day students seats day week prev_day
    (acc.1 ++ [(day, r.1)], acc.2 ++ [(day, r.2)])) ([], [])

end AssignmentEngine

/-! ### Statistics -/

/-- Python's `round` to an integer: round half to even (representation error
of binary floats is not modelled). -/
def pyRound (q : Rat) : Int :=
  let f := ⌊q⌋
  let r := q - (f : Rat)
  if r < 1/2 then f else if 1/2 < r then f + 1 else if f % 2 = 0 then f else f + 1

/-- Python's `round(x, 2)` on the modelled rationals. -/
def round2 (q : Rat) : Rat := ((pyRound (q * 100) : Int) : Rat) / 100

/-- Shape of the dict returned by `get_assignment_statistics`. -/
structure Stats where
  total_assignments : Nat
  total_conflicts : Nat
  occupancy_rate : Rat
  days_with_conflicts : Nat
  conflict_rate : Rat
  total_seats : Nat
  total_students : Nat
deriving DecidableEq

namespace AssignmentEngine

/-- AssignmentEngine.get_assignment_statistics from
`logic/assignment_engine.py`. The per-day maps are modelled as association
lists; only their values are used, matching `.values()`. -/
def get_assignment_statistics (assignments : List (String × List Assignment))
    (conflicts : List (String × List String)) (students : List Student)
    (seats : List Seat) : Stats :=
  let total_assignments := (assignments.map (fun p => p.2.length)).sum
  let total_conflicts := (conflicts.map (fun p => p.2.length)).sum
  let total_seats := seats.length * 7
  let occupancy_rate : Rat :=
    if 0 < total_seats then (total_assignments : Rat) / (total_seats : Rat) * 100 else 0
  let days_with_conflicts := (conflicts.filter (fun p => !p.2.isEmpty)).length
  let total_student_days :=
    (students.map (fun s => (weekDayNames.filter (fun d => s.is_available_on d)).length)).sum
  let conflict_rate : Rat :=
    if 0 < total_student_days then
      (total_conflicts : Rat) / (total_student_days : Rat) * 100
    else 0
  { total_assignments := total_assignments
    total_conflicts := total_conflicts
    occupancy_rate := round2 occupancy_rate
    days_with_conflicts := days_with_conflicts
    conflict_rate := round2 conflict_rate
    total_seats := seats.length
    total_students := students.length }

end AssignmentEngine

/-! ### Assignment duplicate detection -/

/-- Conflict record produced by `validate_assignment_conflicts`. The source
emits dicts keyed `type`, `week`, `day`, then `seat_id` with `student_ids`
(for a duplicate seat) or `student_id` with `seat_ids` (for a duplicate
student); here `dup_id` is the recurring id and `involved` the reported
pair (first holder, current claimant). -/
structure ConflictRec where
  ctype : String
  week : String
  day : String
  dup_id : String
  involved : List String
deriving DecidableEq

/-- Seat-duplication scan of one `(week, day)` group: `seen` is the
`seat_usage` dict mapping a seat id to the student who first used it; every
later occurrence of a seat id emits one conflict. -/
def seatScan (week day : String) (seen : List (String × String)) :
    List Assignment → List ConflictRec
  | [] => []
  | a :: rest =>
    match seen.find? (fun p => p.1 == a.seat_id) with
    | some p =>
      ⟨"duplicate_seat", week, day, a.seat_id, [p.2, a.student_id]⟩ ::
        seatScan week day seen rest
    | none => seatScan week day ((a.seat_id, a.student_id) :: seen) rest

/-- Student-duplication scan of one `(week, day)` group (the `student_usage`
dict of the source). -/
def studentScan (week day : String) (seen : List (String × String)) :
    List Assignment → List ConflictRec
  | [] => []
  | a :: rest =>
    match seen.find? (fun p => p.1 == a.student_id) with
    | some p =>
      ⟨"duplicate_student", week, day, a.student_id, [p.2, a.seat_id]⟩ ::
        studentScan week day seen rest
    | none => studentScan week day ((a.student_id, a.seat_id) :: seen) rest

/-- Keys of the `assignments_by_day` dict in insertion order (Python dicts
preserve it). -/
def groupKeys (l : List Assignment) : List (String × String) :=
  l.foldl (fun ks a => if (a.week, a.day) ∈ ks then ks else ks ++ [(a.week, a.day)]) []

/-- Value of the `assignments_by_day` dict at one key: the assignments with
that `(week, day)`, in input order. -/
def groupOf (l : List Assignment) (k : String × String) : List Assignment :=
  l.filter (fun a => (a.week, a.day) == k)

namespace Validator

/-- Validator.validate_assignment_conflicts from `logic/validator.py`: group
by `(week, day)`, then per group report duplicate seats then duplicate
students, concatenated in group insertion order. -/
def validate_assignment_conflicts (l : List Assignment) : List ConflictRec :=
  ((groupKeys l).map (fun k =>
    seatScan k.1 k.2 [] (groupOf l k) ++ studentScan k.1 k.2 [] (groupOf l k))).flatten

end Validator

/-! ### Theorems -/

theorem dateLt_asymm_total (a b : Nat × Nat × Nat) : ¬ dateLt b a ↔ dateLe a b := by
  obtain ⟨a1, a2, a3⟩ := a
  obtain ⟨b1, b2, b3⟩ := b
  simp only [dateLt, dateLe, Prod.mk.injEq]
  constructor
  · intro h; omega
  · intro h; omega

theorem vsdr_ongoing (st : Student) (h : strLower st.valid_until = "ongoing") :
    Validator.validate_student_date_range st = (true, none) := by
  unfold Validator.validate_student_date_range
  rw [if_pos (by simpa using h)]

theorem vsdr_from_bad (st : Student) (h : strLower st.valid_until ≠ "ongoing")
    (hf : parseYMD st.valid_from = none) :
    Validator.validate_student_date_range st =
      (false, some (DateRangeMsg.invalidFormat st.valid_from)) := by
  unfold Validator.validate_student_date_range
  rw [if_neg (by simpa using h), hf]

theorem vsdr_until_bad (st : Student) (h : strLower st.valid_until ≠ "ongoing")
    (df : Nat × Nat × Nat) (hf : parseYMD st.valid_from = some df)
    (hu : parseYMD st.valid_until = none) :
    Validator.validate_student_date_range st =
      (false, some (DateRangeMsg.invalidFormat st.valid_until)) := by
  unfold Validator.validate_student_date_range
  rw [if_neg (by simpa using h), hf, hu]

theorem vsdr_inverted (st : Student) (h : strLower st.valid_until ≠ "ongoing")
    (df du : Nat × Nat × Nat) (hf : parseYMD st.valid_from = some df)
    (hu : parseYMD st.valid_until = some du) (hlt : dateLt du df) :
    Validator.validate_student_date_range st =
      (false, some (DateRangeMsg.invalidRange st.valid_from st.valid_until)) := by
  unfold Validator.validate_student_date_range
  rw [if_neg (by simpa using h), hf, hu]
  simp only [if_pos hlt]

theorem vsdr_ok (st : Student) (h : strLower st.valid_until ≠ "ongoing")
    (df du : Nat × Nat × Nat) (hf : parseYMD st.valid_from = some df)
    (hu : parseYMD st.valid_until = some du) (hle : ¬ dateLt du df) :
    Validator.validate_student_date_range st = (true, none) := by
  unfold Validator.validate_student_date_range
  rw [if_neg (by simpa using h), hf, hu]
  simp only [if_neg hle]

/-- Claim C7: for every student, `validate_student_date_range` returns valid
for a case-insensitive "ongoing" `valid_until`; otherwise it is valid exactly
when both dates parse as YYYY-MM-DD and `valid_from ≤ valid_until`; every
failure is a `(false, some message)` value (the function is total, never an
exception), an unparseable date yields the `invalidFormat` message and an
inverted range the distinct `invalidRange` message. -/
theorem C7_date_range_validation (st : Student) :
    (strLower st.valid_until = "ongoing" →
      Validator.validate_student_date_range st = (true, none))
    ∧ (strLower st.valid_until ≠ "ongoing" →
      ((Validator.validate_student_date_range st).1 = true ↔
        ∃ df du, parseYMD st.valid_from = some df ∧ parseYMD st.valid_until = some du ∧
          dateLe df du))
    ∧ ((Validator.validate_student_date_range st).1 = false →
        ∃ m, (Validator.validate_student_date_range st).2 = some m)
    ∧ ((Validator.validate_student_date_range st).1 = true →
        (Validator.validate_student_date_range st).2 = none)
    ∧ (strLower st.valid_until ≠ "ongoing" →
        (parseYMD st.valid_from = none ∨ parseYMD st.valid_until = none) →
        ∃ s, (Validator.validate_student_date_range st).2 = some (DateRangeMsg.invalidFormat s))
    ∧ (∀ df du, strLower st.valid_until ≠ "ongoing" →
        parseYMD st.valid_from = some df → parseYMD st.valid_until = some du →
        dateLt du df →
        (Validator.validate_student_date_range st).2 =
          some (DateRangeMsg.invalidRange st.valid_from st.valid_until))
    ∧ (∀ s f u, DateRangeMsg.invalidFormat s ≠ DateRangeMsg.invalidRange f u) := by
  by_cases hOng : strLower st.valid_until = "ongoing"
  · have key := vsdr_ongoing st hOng
    refine ⟨fun _ => key, fun h => absurd hOng h, ?_, ?_, fun h => absurd hOng h,
      fun _ _ h => absurd hOng h, fun s f u => by simp⟩
    · rw [key]; simp
    · rw [key]; simp
  · cases hf : parseYMD st.valid_from with
    | none =>
      have key := vsdr_from_bad st hOng hf
      refine ⟨fun h => absurd h hOng, ?_, ?_, ?_, ?_, ?_, fun s f u => by simp⟩
      · intro _
        rw [key]
        simp only [show ((false, some (DateRangeMsg.invalidFormat st.valid_from)).1 = true) ↔ False by simp, false_iff]
        rintro ⟨df, du, hdf, -, -⟩
        exact Option.noConfusion hdf
      · intro _; rw [key]; exact ⟨_, rfl⟩
      · rw [key]; intro h; exact absurd h (by simp)
      · intro _ _; rw [key]; exact ⟨st.valid_from, rfl⟩
      · intro df du _ hdf _ _; exact Option.noConfusion hdf
    | some df =>
      cases hu : parseYMD st.valid_until with
      | none =>
        have key := vsdr_until_bad st hOng df hf hu
        refine ⟨fun h => absurd h hOng, ?_, ?_, ?_, ?_, ?_, fun s f u => by simp⟩
        · intro _
          rw [key]
          simp only [show ((false, some (DateRangeMsg.invalidFormat st.valid_until)).1 = true) ↔ False by simp, false_iff]
          rintro ⟨df', du, -, hdu, -⟩
          exact Option.noConfusion hdu
        · intro _; rw [key]; exact ⟨_, rfl⟩
        · rw [key]; intro h; exact absurd h (by simp)
        · intro _ _; rw [key]; exact ⟨st.valid_until, rfl⟩
        · intro df' du _ _ hdu _; exact Option.noConfusion hdu
      | some du =>
        by_cases hlt : dateLt du df
        · have key := vsdr_inverted st hOng df du hf hu hlt
          refine ⟨fun h => absurd h hOng, ?_, ?_, ?_, ?_, ?_, fun s f u => by simp⟩
          · intro _
            rw [key]
            simp only [show ((false, some (DateRangeMsg.invalidRange st.valid_from st.valid_until)).1 = true) ↔ False by simp, false_iff]
            rintro ⟨df', du', hdf', hdu', hle⟩
            cases hdf'; cases hdu'
            exact ((dateLt_asymm_total df du).mpr hle) hlt
          · intro _; rw [key]; exact ⟨_, rfl⟩
          · rw [key]; intro h; exact absurd h (by simp)
          · intro _ hcon
            rcases hcon with h | h
            · exact Option.noConfusion h
            · exact Option.noConfusion h
          · intro df' du' _ hdf' hdu' _
            rw [key]
        · have key := vsdr_ok st hOng df du hf hu hlt
          refine ⟨fun h => absurd h hOng, ?_, ?_, ?_, ?_, ?_, fun s f u => by simp⟩
          · intro _
            rw [key]
            simp only [show (((true : Bool), (none : Option DateRangeMsg)).1 = true) ↔ True by simp, true_iff]
            exact ⟨df, du, rfl, rfl, (dateLt_asymm_total df du).mp hlt⟩
          · rw [key]; intro h; exact absurd h (by simp)
          · intro _; rw [key]
          · intro _ hcon
            rcases hcon with h | h
            · exact Option.noConfusion h
            · exact Option.noConfusion h
          · intro df' du' _ hdf' hdu' hlt'
            cases hdf'; cases hdu'
            exact absurd hlt' hlt

/-- Witness for C7: a student with an inverted range 2025-05-10..2025-01-01 is
rejected with the `invalidRange` message. -/
theorem C7_date_range_validation_witness :
    strLower "2025-01-01" ≠ "ongoing" ∧
    (Validator.validate_student_date_range
      ⟨"st1", "Alice", [], "2025-05-10", "2025-01-01", []⟩).2 =
      some (DateRangeMsg.invalidRange "2025-05-10" "2025-01-01") :=
  ⟨by decide,
    (C7_date_range_validation ⟨"st1", "Alice", [], "2025-05-10", "2025-01-01", []⟩).2.2.2.2.2.1
      (2025, 5, 10) (2025, 1, 1) (by decide) (by decide) (by decide) (by decide)⟩

/-- Claim C10: when `valid_until` is (case-insensitively) "ongoing" the
validator returns valid without parsing `valid_from` — even when
`valid_from` is not a parseable YYYY-MM-DD date. -/
theorem C10_ongoing_skips_valid_from (st : Student)
    (hOngoing : strLower st.valid_until = "ongoing")
    (_hbad : parseYMD st.valid_from = none) :
    Validator.validate_student_date_range st = (true, none) :=
  vsdr_ongoing st hOngoing

/-- Witness for C10: garbage `valid_from` together with "Ongoing" is valid. -/
theorem C10_ongoing_skips_valid_from_witness :
    strLower "Ongoing" = "ongoing" ∧ parseYMD "not-a-date" = none ∧
    Validator.validate_student_date_range
      ⟨"st1", "Alice", [], "not-a-date", "Ongoing", []⟩ = (true, none) :=
  ⟨by decide, by decide,
    C10_ongoing_skips_valid_from ⟨"st1", "Alice", [], "not-a-date", "Ongoing", []⟩
      (by decide) (by decide)⟩

/-! ### Room overlap (claim C8) -/

theorem roomsOverlap_iff (r1 r2 : Room) :
    roomsOverlap r1 r2 = true ↔ rectanglesOverlap r1 r2 := by
  simp only [roomsOverlap, rectanglesOverlap, Bool.not_eq_true', Bool.or_eq_false_iff,
    decide_eq_false_iff_not, not_le]
  tauto

theorem rectanglesOverlap_symm (r1 r2 : Room) :
    rectanglesOverlap r1 r2 ↔ rectanglesOverlap r2 r1 := by
  simp only [rectanglesOverlap]
  tauto

theorem mem_overlapConflicts (rooms : List Room) (c : String × String) :
    c ∈ overlapConflicts rooms ↔
      ∃ a b, List.Sublist [a, b] rooms ∧ roomsOverlap a b = true ∧ c = (a.id, b.id) := by
  induction rooms with
  | nil => simp [overlapConflicts]
  | cons r rest ih =>
    simp only [overlapConflicts, List.mem_append, List.mem_map, List.mem_filter, ih]
    constructor
    · rintro (⟨b, ⟨hb, hov⟩, rfl⟩ | ⟨a, b, hsub, hov, rfl⟩)
      · exact ⟨r, b, List.Sublist.cons₂ r (List.singleton_sublist.mpr hb), hov, rfl⟩
      · exact ⟨a, b, hsub.cons r, hov, rfl⟩
    · rintro ⟨a, b, hsub, hov, rfl⟩
      cases hsub with
      | cons _ h => exact Or.inr ⟨a, b, h, hov, rfl⟩
      | cons₂ _ h => exact Or.inl ⟨b, ⟨List.singleton_sublist.mp h, hov⟩, rfl⟩

theorem sublist_pair_of_nodup {α : Type} (a b : α) (hne : a ≠ b) :
    ∀ (l : List α), l.Nodup → a ∈ l → b ∈ l →
      List.Sublist [a, b] l ∨ List.Sublist [b, a] l := by
  intro l
  induction l with
  | nil => intro _ ha _; simp at ha
  | cons x xs ih =>
    intro hl ha hb
    rw [List.nodup_cons] at hl
    rcases List.mem_cons.mp ha with rfl | ha'
    · have hb' : b ∈ xs := by
        rcases List.mem_cons.mp hb with rfl | h
        · exact absurd rfl hne
        · exact h
      exact Or.inl (List.Sublist.cons₂ a (List.singleton_sublist.mpr hb'))
    · rcases List.mem_cons.mp hb with rfl | hb'
      · exact Or.inr (List.Sublist.cons₂ b (List.singleton_sublist.mpr ha'))
      · rcases ih hl.2 ha' hb' with h | h
        · exact Or.inl (h.cons x)
        · exact Or.inr (h.cons x)

/-- Claim C8: an unordered pair of rooms is reported by
`validate_room_overlap` exactly when their rectangles strictly overlap
(rooms sharing only an edge are not reported), the boolean verdict is true
exactly when the conflict list is empty, and the spec's edge-touching
example produces no conflict. -/
theorem C8_room_overlap_validation :
    (∀ (rooms : List Room), (rooms.map (fun r => r.id)).Nodup →
      (∀ r1, r1 ∈ rooms → ∀ r2, r2 ∈ rooms → r1 ≠ r2 →
        (((r1.id, r2.id) ∈ (Validator.validate_room_overlap rooms).2 ∨
          (r2.id, r1.id) ∈ (Validator.validate_room_overlap rooms).2) ↔
          rectanglesOverlap r1 r2))
      ∧ ((Validator.validate_room_overlap rooms).1 = true ↔
          (Validator.validate_room_overlap rooms).2 = []))
    ∧ Validator.validate_room_overlap
        [⟨"room1", "A", 0, 0, 100, 100, "#1e3a5f"⟩, ⟨"room2", "B", 100, 0, 100, 100, "#1e3a5f"⟩]
        = (true, []) := by
  constructor
  · intro rooms hnd
    have hc : (Validator.validate_room_overlap rooms).2 = overlapConflicts rooms := rfl
    constructor
    · intro r1 h1 r2 h2 hne
      rw [hc]
      constructor
      · rintro (hmem | hmem)
        · obtain ⟨a, b, hsub, hov, heq⟩ := (mem_overlapConflicts rooms _).mp hmem
          obtain ⟨hid1, hid2⟩ := Prod.mk.injEq .. ▸ heq
          have hamem : a ∈ rooms := hsub.subset (by simp)
          have hbmem : b ∈ rooms := hsub.subset (by simp)
          have ha : r1 = a := List.inj_on_of_nodup_map hnd h1 hamem hid1
          have hb : r2 = b := List.inj_on_of_nodup_map hnd h2 hbmem hid2
          rw [ha, hb]
          exact (roomsOverlap_iff a b).mp hov
        · obtain ⟨a, b, hsub, hov, heq⟩ := (mem_overlapConflicts rooms _).mp hmem
          obtain ⟨hid1, hid2⟩ := Prod.mk.injEq .. ▸ heq
          have hamem : a ∈ rooms := hsub.subset (by simp)
          have hbmem : b ∈ rooms := hsub.subset (by simp)
          have ha : r2 = a := List.inj_on_of_nodup_map hnd h2 hamem hid1
          have hb : r1 = b := List.inj_on_of_nodup_map hnd h1 hbmem hid2
          rw [rectanglesOverlap_symm, ha, hb]
          exact (roomsOverlap_iff a b).mp hov
      · intro hov
        rcases sublist_pair_of_nodup r1 r2 hne rooms (List.Nodup.of_map _ hnd) h1 h2 with hs | hs
        · exact Or.inl ((mem_overlapConflicts rooms _).mpr
            ⟨r1, r2, hs, (roomsOverlap_iff r1 r2).mpr hov, rfl⟩)
        · exact Or.inr ((mem_overlapConflicts rooms _).mpr
            ⟨r2, r1, hs, (roomsOverlap_iff r2 r1).mpr ((rectanglesOverlap_symm r1 r2).mp hov), rfl⟩)
    · rw [hc]
      show ((overlapConflicts rooms).length == 0) = true ↔ _
      simp [List.length_eq_zero]
  · have h1 : roomsOverlap ⟨"room1", "A", 0, 0, 100, 100, "#1e3a5f"⟩
        ⟨"room2", "B", 100, 0, 100, 100, "#1e3a5f"⟩ = false := by
      simp only [roomsOverlap, Bool.not_eq_false', Bool.or_eq_true, decide_eq_true_eq]
      left; left; left
      norm_num
    simp [Validator.validate_room_overlap, overlapConflicts, h1]

/-- Witness for C8: two genuinely overlapping rooms are reported. -/
theorem C8_room_overlap_validation_witness :
    ((([⟨"room1", "A", 0, 0, 100, 100, "c"⟩, ⟨"room2", "B", 50, 50, 100, 100, "c"⟩] :
        List Room).map (fun r => r.id)).Nodup) ∧
    ((((Room.mk "room1" "A" 0 0 100 100 "c").id, (Room.mk "room2" "B" 50 50 100 100 "c").id) ∈
        (Validator.validate_room_overlap
          [⟨"room1", "A", 0, 0, 100, 100, "c"⟩, ⟨"room2", "B", 50, 50, 100, 100, "c"⟩]).2 ∨
      ((Room.mk "room2" "B" 50 50 100 100 "c").id, (Room.mk "room1" "A" 0 0 100 100 "c").id) ∈
        (Validator.validate_room_overlap
          [⟨"room1", "A", 0, 0, 100, 100, "c"⟩, ⟨"room2", "B", 50, 50, 100, 100, "c"⟩]).2) ↔
      rectanglesOverlap ⟨"room1", "A", 0, 0, 100, 100, "c"⟩ ⟨"room2", "B", 50, 50, 100, 100, "c"⟩) :=
  ⟨by decide,
    (C8_room_overlap_validation.1
      [⟨"room1", "A", 0, 0, 100, 100, "c"⟩, ⟨"room2", "B", 50, 50, 100, 100, "c"⟩]
      (by decide)).1
      ⟨"room1", "A", 0, 0, 100, 100, "c"⟩ (by simp)
      ⟨"room2", "B", 50, 50, 100, 100, "c"⟩ (by simp)
      (by simp)⟩

/-! ### Stable sort permutation facts -/

theorem insertBy_perm {a : Type} (le : a → a → Bool) (x : a) (l : List a) :
    List.Perm (insertBy le x l) (x :: l) := by
  induction l with
  | nil => exact List.Perm.refl _
  | cons y ys ih =>
    by_cases h : le y x = true
    · simp only [insertBy, if_pos h]
      exact (ih.cons y).trans (List.Perm.swap x y ys)
    · simp only [insertBy, if_neg h]
      exact List.Perm.refl _

theorem sortBy_perm_aux {a : Type} (le : a → a → Bool) :
    ∀ (l acc : List a),
      List.Perm (l.foldl (fun acc x => insertBy le x acc) acc) (acc ++ l) := by
  intro l
  induction l with
  | nil => intro acc; simp
  | cons x xs ih =>
    intro acc
    have h1 := ih (insertBy le x acc)
    have h2 : List.Perm (insertBy le x acc ++ xs) ((x :: acc) ++ xs) :=
      (insertBy_perm le x acc).append_right xs
    have h3 : List.Perm (acc ++ x :: xs) (x :: (acc ++ xs)) := List.perm_middle
    exact ((h1.trans h2).trans (List.Perm.refl _)).trans h3.symm

theorem sortBy_perm {a : Type} (le : a → a → Bool) (l : List a) :
    List.Perm (sortBy le l) l := by
  simpa [sortBy] using sortBy_perm_aux le l []

/-! ### Week orchestration (claim C9) -/

theorem assign_week_foldl (students : List Student) (seats : List Seat) (week : String)
    (previous_assignments : List (String × List Assignment)) :
    ∀ (days : List String) (acc1 : List (String × List Assignment))
      (acc2 : List (String × List String)),
      days.foldl (fun acc day =>
        let prev_day :=
          ((previous_assignments.find? (fun p => p.1 == day)).map (fun p => p.2)).getD []
        let r := AssignmentEngine.assign_day students seats day week prev_day
        (acc.1 ++ [(day, r.1)], acc.2 ++ [(day, r.2)])) (acc1, acc2) =
      (acc1 ++ days.map (fun day => (day, (AssignmentEngine.assign_day students seats day week
          (((previous_assignments.find? (fun p => p.1 == day)).map (fun p => p.2)).getD [])).1)),
       acc2 ++ days.map (fun day => (day, (AssignmentEngine.assign_day students seats day week
          (((previous_assignments.find? (fun p => p.1 == day)).map (fun p => p.2)).getD [])).2))) := by
  intro days
  induction days with
  | nil => intro acc1 acc2; simp
  | cons d ds ih =>
    intro acc1 acc2
    simp only [List.foldl_cons, List.map_cons, ih, List.append_assoc, List.cons_append,
      List.nil_append]

/-- Claim C9: `assign_week` returns maps keyed by the seven weekdays in
canonical Monday..Sunday order, and the entry for each weekday equals
`assign_day` on the full student and seat lists with that weekday's
previous-week assignments (empty when absent). -/
theorem C9_week_orchestration (students : List Student) (seats : List Seat) (week : String)
    (previous_assignments : List (String × List Assignment)) :
    (AssignmentEngine.assign_week students seats week previous_assignments).1 =
      weekDayNames.map (fun day => (day, (AssignmentEngine.assign_day students seats day week
        (((previous_assignments.find? (fun p => p.1 == day)).map (fun p => p.2)).getD [])).1))
    ∧ (AssignmentEngine.assign_week students seats week previous_assignments).2 =
      weekDayNames.map (fun day => (day, (AssignmentEngine.assign_day students seats day week
        (((previous_assignments.find? (fun p => p.1 == day)).map (fun p => p.2)).getD [])).2))
    ∧ ((AssignmentEngine.assign_week students seats week previous_assignments).1.map
        (fun p => p.1) = weekDayNames)
    ∧ ((AssignmentEngine.assign_week students seats week previous_assignments).2.map
        (fun p => p.1) = weekDayNames) := by
  have key : AssignmentEngine.assign_week students seats week previous_assignments =
      (weekDayNames.map (fun day => (day, (AssignmentEngine.assign_day students seats day week
          (((previous_assignments.find? (fun p => p.1 == day)).map (fun p => p.2)).getD [])).1)),
       weekDayNames.map (fun day => (day, (AssignmentEngine.assign_day students seats day week
          (((previous_assignments.find? (fun p => p.1 == day)).map (fun p => p.2)).getD [])).2))) := by
    unfold AssignmentEngine.assign_week
    simpa using assign_week_foldl students seats week previous_assignments weekDayNames [] []
  refine ⟨by rw [key], by rw [key], ?_, ?_⟩
  · rw [key]; simp only [List.map_map]; exact List.map_id weekDayNames
  · rw [key]; simp only [List.map_map]; exact List.map_id weekDayNames

/-! ### Day assignment counting (claim C4) -/

theorem assignDayLoop_length (day week : String) (prev : List Assignment) :
    ∀ (studs : List Student) (pool : List Seat),
      (AssignmentEngine.assignDayLoop day week prev studs pool).1.length +
        (AssignmentEngine.assignDayLoop day week prev studs pool).2.length = studs.length := by
  intro studs
  induction studs with
  | nil => intro pool; simp [AssignmentEngine.assignDayLoop]
  | cons s rest ih =>
    intro pool
    cases h : AssignmentEngine.find_seat_for_student s pool (prevSeatInPool prev pool s) with
    | some seat =>
      simp only [AssignmentEngine.assignDayLoop, h]
      have := ih (pool.erase seat)
      simp only [List.length_cons]
      omega
    | none =>
      simp only [AssignmentEngine.assignDayLoop, h]
      have := ih pool
      simp only [List.length_cons]
      omega

theorem find_seat_empty_pool (student : Student) (prevOpt : Option Seat) :
    AssignmentEngine.find_seat_for_student student [] prevOpt = none := rfl

theorem assignDayLoop_empty_pool (day week : String) (prev : List Assignment) :
    ∀ (studs : List Student),
      AssignmentEngine.assignDayLoop day week prev studs [] =
        ([], studs.map (fun s => s.id)) := by
  intro studs
  induction studs with
  | nil => rfl
  | cons s rest ih =>
    simp only [AssignmentEngine.assignDayLoop, find_seat_empty_pool, ih, List.map_cons]

/-- Claim C4: for every `assign_day` call, assignments plus conflicts count
exactly the students available on the day; with zero seats every available
student lands in the conflicts, and with zero available students both
outputs are empty. -/
theorem C4_conservation (students : List Student) (seats : List Seat) (day week : String)
    (prev : List Assignment) :
    ((AssignmentEngine.assign_day students seats day week prev).1.length +
      (AssignmentEngine.assign_day students seats day week prev).2.length =
      (students.filter (fun s => s.is_available_on day)).length)
    ∧ (seats = [] →
        (AssignmentEngine.assign_day students seats day week prev).1 = [] ∧
        ∀ s ∈ students, s.is_available_on day = true →
          s.id ∈ (AssignmentEngine.assign_day students seats day week prev).2)
    ∧ (students.filter (fun s => s.is_available_on day) = [] →
        AssignmentEngine.assign_day students seats day week prev = ([], [])) := by
  have hperm : List.Perm
      (sortBy (fun s1 s2 => tupleKeyLe (get_priority_sort_key s1 prev)
        (get_priority_sort_key s2 prev)) (students.filter (fun s => s.is_available_on day)))
      (students.filter (fun s => s.is_available_on day)) := sortBy_perm _ _
  refine ⟨?_, ?_, ?_⟩
  · unfold AssignmentEngine.assign_day
    rw [assignDayLoop_length]
    exact hperm.length_eq
  · rintro rfl
    unfold AssignmentEngine.assign_day
    rw [assignDayLoop_empty_pool]
    refine ⟨rfl, ?_⟩
    intro s hs hav
    have hmem : s ∈ students.filter (fun t => t.is_available_on day) :=
      List.mem_filter.mpr ⟨hs, hav⟩
    exact List.mem_map_of_mem _ (hperm.mem_iff.mpr hmem)
  · intro hfil
    unfold AssignmentEngine.assign_day
    rw [hfil]
    rfl

/-- Witness for C4: one available student and no seats gives an empty
assignment list with the student's id among the conflicts. -/
theorem C4_conservation_witness :
    (AssignmentEngine.assign_day
      [⟨"st1", "Alice", [("monday", true)], "2025-01-01", "ongoing", []⟩]
      [] "monday" "2025-W43" []).1 = [] ∧
    ∀ s ∈ [(⟨"st1", "Alice", [("monday", true)], "2025-01-01", "ongoing", []⟩ : Student)],
      s.is_available_on "monday" = true →
      s.id ∈ (AssignmentEngine.assign_day
        [⟨"st1", "Alice", [("monday", true)], "2025-01-01", "ongoing", []⟩]
        [] "monday" "2025-W43" []).2 :=
  (C4_conservation
    [⟨"st1", "Alice", [("monday", true)], "2025-01-01", "ongoing", []⟩]
    [] "monday" "2025-W43" []).2.1 rfl

/-! ### Previous-seat continuity (claim C1) -/

/-- Counterexample to C1 as stated: Bob (`st2`) held seat `sX` on this
weekday, `sX` is present in the day's seat list, yet Bob is not assigned
`sX`: Alice sorts first in the same priority tier (her previous seat `sZ` is
gone, so she falls through to the any-free-seat rule) and takes `sX`. -/
theorem C1_counterexample :
    lookupPrevSeat
      [⟨"st1", "sZ", "monday", "2025-W42"⟩, ⟨"st2", "sX", "monday", "2025-W42"⟩]
      "st2" = some "sX"
    ∧ "sX" ∈ ([⟨"sX", "r1", 1, 0, 0, []⟩] : List Seat).map (fun t => t.id)
    ∧ (⟨"st2", "Bob", [("monday", true)], "2025-01-01", "ongoing", []⟩ : Student) ∈
        ([⟨"st1", "Alice", [("monday", true)], "2025-01-01", "ongoing", []⟩,
          ⟨"st2", "Bob", [("monday", true)], "2025-01-01", "ongoing", []⟩] : List Student)
    ∧ ¬ ∃ a ∈ (AssignmentEngine.assign_day
        [⟨"st1", "Alice", [("monday", true)], "2025-01-01", "ongoing", []⟩,
         ⟨"st2", "Bob", [("monday", true)], "2025-01-01", "ongoing", []⟩]
        [⟨"sX", "r1", 1, 0, 0, []⟩] "monday" "2025-W43"
        [⟨"st1", "sZ", "monday", "2025-W42"⟩, ⟨"st2", "sX", "monday", "2025-W42"⟩]).1,
        a.student_id = "st2" ∧ a.seat_id = "sX" := by
  decide

/-- Amended C1: the guarantee holds at the moment the student is processed.
When a student comes up in `assign_day`'s loop with a recorded non-empty
previous seat id X and some seat with id X is still in the (possibly already
depleted) pool, that student is assigned seat id X. -/
theorem C1_previous_seat_when_available (day week : String) (prev : List Assignment)
    (s : Student) (rest : List Student) (pool : List Seat) (x : String)
    (hx : lookupPrevSeat prev s.id = some x) (hne : x ≠ "")
    (hmem : ∃ t ∈ pool, t.id = x) :
    ∃ a ∈ (AssignmentEngine.assignDayLoop day week prev (s :: rest) pool).1,
      a.student_id = s.id ∧ a.seat_id = x := by
  have hsome : (pool.find? (fun t => t.id == x)).isSome := by
    rw [List.find?_isSome]
    obtain ⟨t, htm, hid⟩ := hmem
    exact ⟨t, htm, by simp [hid]⟩
  obtain ⟨t, ht⟩ := Option.isSome_iff_exists.mp hsome
  have htid : t.id = x := by simpa using List.find?_some ht
  have htmem : t ∈ pool := List.mem_of_find?_eq_some ht
  have hprev : prevSeatInPool prev pool s = some t := by
    unfold prevSeatInPool
    rw [hx]
    show (if (x == "") = true then none else List.find? (fun t => t.id == x) pool) = some t
    rw [if_neg (by simpa using hne)]
    exact ht
  have hemp : pool.isEmpty = false := by
    cases pool with
    | nil => cases htmem
    | cons hd tl => rfl
  have hcontains : pool.contains t = true := by simpa using htmem
  have hfs : AssignmentEngine.find_seat_for_student s pool (some t) = some t := by
    unfold AssignmentEngine.find_seat_for_student
    rw [hemp]
    simp only [Bool.false_eq_true, if_false]
    have hc : (match some t with
        | some p => pool.contains p
        | none => false) = true := hcontains
    rw [if_pos hc]
  refine ⟨⟨s.id, t.id, day, week⟩, ?_, rfl, htid⟩
  simp only [AssignmentEngine.assignDayLoop, hprev, hfs]
  exact List.mem_cons_self _ _

/-- Witness for the amended C1: a single student whose previous seat is
still free receives it. -/
theorem C1_previous_seat_when_available_witness :
    lookupPrevSeat [⟨"st2", "sX", "monday", "2025-W42"⟩] "st2" = some "sX" ∧
    ∃ a ∈ (AssignmentEngine.assignDayLoop "monday" "2025-W43"
        [⟨"st2", "sX", "monday", "2025-W42"⟩]
        [⟨"st2", "Bob", [("monday", true)], "2025-01-01", "ongoing", []⟩]
        [⟨"sX", "r1", 1, 0, 0, []⟩]).1,
      a.student_id = "st2" ∧ a.seat_id = "sX" :=
  ⟨by decide,
    C1_previous_seat_when_available "monday" "2025-W43"
      [⟨"st2", "sX", "monday", "2025-W42"⟩]
      ⟨"st2", "Bob", [("monday", true)], "2025-01-01", "ongoing", []⟩ []
      [⟨"sX", "r1", 1, 0, 0, []⟩] "sX" (by decide) (by decide) (by decide)⟩

/-! ### Day assignment invariants (claim C3) -/

theorem findSeatSearch_mem (student : Student) (pool : List Seat) (t : Seat)
    (h : AssignmentEngine.findSeatSearch student pool = some t) : t ∈ pool := by
  simp only [AssignmentEngine.findSeatSearch] at h
  by_cases hreq : (!student.requirements.isEmpty) = true
  · rw [if_pos hreq] at h
    cases hfil : pool.filter (fun seat =>
        student.requirements.all (fun req => seat.has_property req)) with
    | cons seat tail =>
      rw [hfil] at h
      cases h
      have htf : t ∈ pool.filter (fun seat =>
          student.requirements.all (fun req => seat.has_property req)) := by
        rw [hfil]; exact List.mem_cons_self _ _
      exact List.mem_of_mem_filter htf
    | nil =>
      rw [hfil] at h
      cases hsort : sortPairsDesc (pool.filterMap (fun seat =>
          if 0 < matchCount student seat then some (matchCount student seat, seat)
          else none)) with
      | cons p ps =>
        rw [hsort] at h
        have hpt : p.2 = t := by injection h
        rw [← hpt]
        have hp : p ∈ sortPairsDesc (pool.filterMap (fun seat =>
            if 0 < matchCount student seat then some (matchCount student seat, seat)
            else none)) := by
          rw [hsort]; exact List.mem_cons_self _ _
        have hp' : p ∈ pool.filterMap (fun seat =>
            if 0 < matchCount student seat then some (matchCount student seat, seat)
            else none) := (sortBy_perm _ _).mem_iff.mp hp
        obtain ⟨seat, hseat, heq⟩ := List.mem_filterMap.mp hp'
        by_cases h0 : 0 < matchCount student seat
        · rw [if_pos h0] at heq
          cases heq
          exact hseat
        · rw [if_neg h0] at heq
          cases heq
      | nil =>
        rw [hsort] at h
        cases pool with
        | nil => cases h
        | cons hd tl =>
          cases h
          exact List.mem_cons_self _ _
  · rw [if_neg hreq] at h
    cases pool with
    | nil => cases h
    | cons hd tl =>
      cases h
      exact List.mem_cons_self _ _

theorem find_seat_mem (student : Student) (pool : List Seat) (prevOpt : Option Seat) (t : Seat)
    (h : AssignmentEngine.find_seat_for_student student pool prevOpt = some t) : t ∈ pool := by
  unfold AssignmentEngine.find_seat_for_student at h
  by_cases hemp : pool.isEmpty = true
  · rw [if_pos hemp] at h; cases h
  · rw [if_neg hemp] at h
    cases prevOpt with
    | none =>
      exact findSeatSearch_mem student pool t (by simpa using h)
    | some p =>
      by_cases hcon : pool.contains p = true
      · simp only [hcon, if_pos] at h
        cases h
        simpa using hcon
      · rw [Bool.not_eq_true] at hcon
        simp only [hcon, Bool.false_eq_true, if_false] at h
        exact findSeatSearch_mem student pool t h

theorem id_not_mem_erase (pool : List Seat) (t : Seat)
    (hnd : (pool.map (fun s => s.id)).Nodup) (ht : t ∈ pool) :
    t.id ∉ (pool.erase t).map (fun s => s.id) := by
  intro hmem
  obtain ⟨u, humem, huid⟩ := List.mem_map.mp hmem
  have hu_pool : u ∈ pool := (List.erase_sublist t pool).subset humem
  have hpoolnd : pool.Nodup := List.Nodup.of_map _ hnd
  have hut : u = t := List.inj_on_of_nodup_map hnd hu_pool ht huid
  subst hut
  exact hpoolnd.not_mem_erase humem

theorem assignDayLoop_spec (day week : String) (prev : List Assignment) :
    ∀ (studs : List Student) (pool : List Seat),
      (studs.map (fun s => s.id)).Nodup → (pool.map (fun t => t.id)).Nodup →
      (((AssignmentEngine.assignDayLoop day week prev studs pool).1.map
          (fun a => a.seat_id)).Nodup
      ∧ ((AssignmentEngine.assignDayLoop day week prev studs pool).1.map
          (fun a => a.student_id)).Nodup
      ∧ ∀ a ∈ (AssignmentEngine.assignDayLoop day week prev studs pool).1,
          a.student_id ∈ studs.map (fun s => s.id) ∧
          a.seat_id ∈ pool.map (fun t => t.id)) := by
  intro studs
  induction studs with
  | nil => intro pool _ _; simp [AssignmentEngine.assignDayLoop]
  | cons s rest ih =>
    intro pool hs hp
    rw [List.map_cons, List.nodup_cons] at hs
    obtain ⟨hsid, hrest⟩ := hs
    cases hfs : AssignmentEngine.find_seat_for_student s pool (prevSeatInPool prev pool s) with
    | none =>
      simp only [AssignmentEngine.assignDayLoop, hfs]
      obtain ⟨h1, h2, h3⟩ := ih pool hrest hp
      refine ⟨h1, h2, fun a ha => ⟨?_, (h3 a ha).2⟩⟩
      rw [List.map_cons]
      exact List.mem_cons_of_mem _ (h3 a ha).1
    | some seat =>
      have hseatmem : seat ∈ pool := find_seat_mem s pool _ seat hfs
      have hermap : List.Sublist ((pool.erase seat).map (fun t => t.id))
          (pool.map (fun t => t.id)) := (List.erase_sublist seat pool).map _
      obtain ⟨h1, h2, h3⟩ := ih (pool.erase seat) hrest (hp.sublist hermap)
      simp only [AssignmentEngine.assignDayLoop, hfs]
      refine ⟨?_, ?_, ?_⟩
      · rw [List.map_cons, List.nodup_cons]
        refine ⟨?_, h1⟩
        intro hmem
        obtain ⟨a, ha, haid⟩ := List.mem_map.mp hmem
        have := (h3 a ha).2
        rw [haid] at this
        exact id_not_mem_erase pool seat hp hseatmem this
      · rw [List.map_cons, List.nodup_cons]
        refine ⟨?_, h2⟩
        intro hmem
        obtain ⟨a, ha, haid⟩ := List.mem_map.mp hmem
        have := (h3 a ha).1
        rw [haid] at this
        exact hsid this
      · intro a ha
        rcases List.mem_cons.mp ha with rfl | ha'
        · exact ⟨by simp, by simpa using List.mem_map_of_mem (fun t => t.id) hseatmem⟩
        · exact ⟨by rw [List.map_cons]; exact List.mem_cons_of_mem _ (h3 a ha').1,
            hermap.subset (h3 a ha').2⟩

/-- Claim C3: within one `assign_day` output no seat id repeats, no student
id repeats, and every assigned id comes from the input snapshot. The data
model's id-uniqueness (spec section 3) is the hypothesis. -/
theorem C3_day_output_invariants (students : List Student) (seats : List Seat)
    (day week : String) (prev : List Assignment)
    (hstud : (students.map (fun s => s.id)).Nodup)
    (hseat : (seats.map (fun t => t.id)).Nodup) :
    (((AssignmentEngine.assign_day students seats day week prev).1.map
        (fun a => a.seat_id)).Nodup)
    ∧ (((AssignmentEngine.assign_day students seats day week prev).1.map
        (fun a => a.student_id)).Nodup)
    ∧ ∀ a ∈ (AssignmentEngine.assign_day students seats day week prev).1,
        a.student_id ∈ students.map (fun s => s.id) ∧
        a.seat_id ∈ seats.map (fun t => t.id) := by
  have hfil : List.Sublist (students.filter (fun s => s.is_available_on day)) students :=
    List.filter_sublist _
  have hperm : List.Perm
      (sortBy (fun s1 s2 => tupleKeyLe (get_priority_sort_key s1 prev)
        (get_priority_sort_key s2 prev)) (students.filter (fun s => s.is_available_on day)))
      (students.filter (fun s => s.is_available_on day)) := sortBy_perm _ _
  have hfilnd : ((students.filter (fun s => s.is_available_on day)).map
      (fun s => s.id)).Nodup := hstud.sublist (hfil.map _)
  have hsortnd : ((sortBy (fun s1 s2 => tupleKeyLe (get_priority_sort_key s1 prev)
      (get_priority_sort_key s2 prev)) (students.filter (fun s => s.is_available_on day))).map
      (fun s => s.id)).Nodup := ((hperm.map _).nodup_iff).mpr hfilnd
  obtain ⟨h1, h2, h3⟩ := assignDayLoop_spec day week prev _ seats hsortnd hseat
  refine ⟨h1, h2, ?_⟩
  intro a ha
  refine ⟨?_, (h3 a ha).2⟩
  have := (h3 a ha).1
  have hmem := (hperm.map (fun s => s.id)).mem_iff.mp this
  exact (hfil.map (fun s => s.id)).subset hmem

/-- Witness for C3 at a concrete call. -/
theorem C3_day_output_invariants_witness :
    (([⟨"st1", "Alice", [("monday", true)], "2025-01-01", "ongoing", []⟩,
       ⟨"st2", "Bob", [("monday", true)], "2025-01-01", "ongoing", []⟩] :
        List Student).map (fun s => s.id)).Nodup ∧
    (([⟨"s1", "r1", 1, 0, 0, []⟩] : List Seat).map (fun t => t.id)).Nodup ∧
    ∀ a ∈ (AssignmentEngine.assign_day
        [⟨"st1", "Alice", [("monday", true)], "2025-01-01", "ongoing", []⟩,
         ⟨"st2", "Bob", [("monday", true)], "2025-01-01", "ongoing", []⟩]
        [⟨"s1", "r1", 1, 0, 0, []⟩] "monday" "2025-W43" []).1,
      a.student_id ∈ ([⟨"st1", "Alice", [("monday", true)], "2025-01-01", "ongoing", []⟩,
         ⟨"st2", "Bob", [("monday", true)], "2025-01-01", "ongoing", []⟩] :
          List Student).map (fun s => s.id) ∧
      a.seat_id ∈ ([⟨"s1", "r1", 1, 0, 0, []⟩] : List Seat).map (fun t => t.id) :=
  ⟨by decide, by decide,
    (C3_day_output_invariants
      [⟨"st1", "Alice", [("monday", true)], "2025-01-01", "ongoing", []⟩,
       ⟨"st2", "Bob", [("monday", true)], "2025-01-01", "ongoing", []⟩]
      [⟨"s1", "r1", 1, 0, 0, []⟩] "monday" "2025-W43" [] (by decide) (by decide)).2.2⟩

/-! ### Best partial match (claim C2) -/

theorem insertPairDesc_head (x y : Nat × Seat) (ys : List (Nat × Seat)) :
    (insertBy (fun p q => decide (q.1 ≤ p.1)) x (y :: ys)).head? =
      some (if x.1 ≤ y.1 then y else x) := by
  by_cases h : x.1 ≤ y.1
  · rw [if_pos h]
    simp only [insertBy, if_pos (show decide (x.1 ≤ y.1) = true by simp [h])]
    rfl
  · rw [if_neg h]
    simp only [insertBy, if_neg (show ¬ decide (x.1 ≤ y.1) = true by simp [h])]
    rfl

theorem sortPairs_foldl_head :
    ∀ (l acc : List (Nat × Seat)) (a : Nat × Seat), acc.head? = some a →
      (l.foldl (fun acc x => insertBy (fun p q => decide (q.1 ≤ p.1)) x acc) acc).head? =
        some (firstMaxPair a l) := by
  intro l
  induction l with
  | nil => intro acc a ha; simpa [firstMaxPair] using ha
  | cons x xs ih =>
    intro acc a ha
    cases acc with
    | nil => cases ha
    | cons b tl =>
      have hba : b = a := by injection ha
      subst hba
      rw [List.foldl_cons]
      have hrec := ih (insertBy (fun p q => decide (q.1 ≤ p.1)) x (b :: tl))
        (if x.1 ≤ b.1 then b else x) (insertPairDesc_head x b tl)
      rw [hrec]
      simp only [firstMaxPair]
      by_cases h : b.1 < x.1
      · rw [if_neg (not_le.mpr h), if_pos h]
      · rw [if_pos (not_lt.mp h), if_neg h]

theorem sortPairsDesc_head (q : Nat × Seat) (qs : List (Nat × Seat)) :
    (sortPairsDesc (q :: qs)).head? = some (firstMaxPair q qs) := by
  unfold sortPairsDesc sortBy
  rw [List.foldl_cons]
  exact sortPairs_foldl_head qs (insertBy (fun p q => decide (q.1 ≤ p.1)) q []) q rfl

theorem firstMaxPair_max :
    ∀ (l : List (Nat × Seat)) (a : Nat × Seat), ∀ p ∈ a :: l, p.1 ≤ (firstMaxPair a l).1 := by
  intro l
  induction l with
  | nil =>
    intro a p hp
    have := List.mem_singleton.mp hp
    subst this
    simp [firstMaxPair]
  | cons y ys ih =>
    intro a p hp
    simp only [firstMaxPair]
    by_cases h : a.1 < y.1
    · rw [if_pos h]
      rcases List.mem_cons.mp hp with rfl | hp'
      · exact (le_of_lt h).trans (ih y y (List.mem_cons_self y ys))
      · exact ih y p hp'
    · rw [if_neg h]
      rcases List.mem_cons.mp hp with rfl | hp'
      · exact ih p p (List.mem_cons_self p ys)
      · rcases List.mem_cons.mp hp' with rfl | hp''
        · exact (not_lt.mp h).trans (ih a a (List.mem_cons_self a ys))
        · exact ih a p (List.mem_cons_of_mem a hp'')

theorem firstMaxPair_mem :
    ∀ (l : List (Nat × Seat)) (a : Nat × Seat), firstMaxPair a l ∈ a :: l := by
  intro l
  induction l with
  | nil => intro a; simp [firstMaxPair]
  | cons y ys ih =>
    intro a
    simp only [firstMaxPair]
    by_cases h : a.1 < y.1
    · rw [if_pos h]
      exact List.mem_cons_of_mem a (ih y)
    · rw [if_neg h]
      rcases List.mem_cons.mp (ih a) with heq | hmem
      · rw [heq]; exact List.mem_cons_self _ _
      · exact List.mem_cons_of_mem a (List.mem_cons_of_mem y hmem)

theorem firstMaxPair_eq_self :
    ∀ (l : List (Nat × Seat)) (a : Nat × Seat),
      (firstMaxPair a l).1 ≤ a.1 → firstMaxPair a l = a := by
  intro l
  induction l with
  | nil => intro a _; rfl
  | cons y ys ih =>
    intro a h
    simp only [firstMaxPair] at h ⊢
    by_cases hlt : a.1 < y.1
    · rw [if_pos hlt] at h ⊢
      exact absurd ((firstMaxPair_max ys y y (List.mem_cons_self _ _)).trans h)
        (not_le.mpr hlt)
    · rw [if_neg hlt] at h ⊢
      exact ih a h

theorem firstMaxPair_find_of_lt :
    ∀ (l : List (Nat × Seat)) (a : Nat × Seat),
      a.1 < (firstMaxPair a l).1 →
      l.find? (fun p => p.1 == (firstMaxPair a l).1) = some (firstMaxPair a l) := by
  intro l
  induction l with
  | nil => intro a h; simp [firstMaxPair] at h
  | cons y ys ih =>
    intro a h
    simp only [firstMaxPair] at h ⊢
    by_cases hlt : a.1 < y.1
    · rw [if_pos hlt] at h ⊢
      by_cases hy : y.1 = (firstMaxPair y ys).1
      · have hfm : firstMaxPair y ys = y := firstMaxPair_eq_self ys y (le_of_eq hy.symm)
        rw [hfm]
        exact List.find?_cons_of_pos _ (by simp)
      · have hylt : y.1 < (firstMaxPair y ys).1 :=
          lt_of_le_of_ne (firstMaxPair_max ys y y (List.mem_cons_self _ _)) hy
        rw [List.find?_cons_of_neg _ (by simpa using hy)]
        exact ih y hylt
    · rw [if_neg hlt] at h ⊢
      have hy : y.1 < (firstMaxPair a ys).1 := lt_of_le_of_lt (not_lt.mp hlt) h
      rw [List.find?_cons_of_neg _ (by simpa using ne_of_lt hy)]
      exact ih a h

theorem firstMaxPair_find (qs : List (Nat × Seat)) (q : Nat × Seat) :
    (q :: qs).find? (fun p => p.1 == (firstMaxPair q qs).1) = some (firstMaxPair q qs) := by
  by_cases hq : q.1 = (firstMaxPair q qs).1
  · have hfm : firstMaxPair q qs = q := firstMaxPair_eq_self qs q (le_of_eq hq.symm)
    rw [hfm]
    exact List.find?_cons_of_pos _ (by simp)
  · have hlt : q.1 < (firstMaxPair q qs).1 :=
      lt_of_le_of_ne (firstMaxPair_max qs q q (List.mem_cons_self _ _)) hq
    rw [List.find?_cons_of_neg _ (by simpa using hq)]
    exact firstMaxPair_find_of_lt qs q hlt

theorem filterMap_find_transfer (student : Student) (M : Nat) (hM : 0 < M) :
    ∀ (pool : List Seat),
      (pool.filterMap (fun seat =>
        if 0 < matchCount student seat then some (matchCount student seat, seat)
        else none)).find? (fun p => p.1 == M) =
      (pool.find? (fun t => matchCount student t == M)).map
        (fun t => (matchCount student t, t)) := by
  intro pool
  induction pool with
  | nil => rfl
  | cons t rest ih =>
    by_cases h0 : 0 < matchCount student t
    · rw [List.filterMap_cons_some (by rw [if_pos h0])]
      by_cases hM' : matchCount student t = M
      · rw [List.find?_cons_of_pos _ (by simpa using hM'),
          List.find?_cons_of_pos _ (by simpa using hM')]
        rfl
      · rw [List.find?_cons_of_neg _ (by simpa using hM'),
          List.find?_cons_of_neg _ (by simpa using hM')]
        exact ih
    · rw [List.filterMap_cons_none (by rw [if_neg h0])]
      have hne : matchCount student t ≠ M := by omega
      rw [List.find?_cons_of_neg _ (by simpa using hne)]
      exact ih

/-- Claim C2: with non-empty requirements, no usable previous seat, no
perfect match but some partial match, `find_seat_for_student` returns a seat
whose satisfied-requirement count is maximal over the current pool, and
among the seats attaining that count the earliest one in pool order (it is
what `find?` with that count returns). -/
theorem C2_best_partial_match (student : Student) (available_seats : List Seat)
    (previous_seat : Option Seat)
    (hreq : student.requirements ≠ [])
    (hprev : ∀ p, previous_seat = some p → p ∉ available_seats)
    (hnoperfect : ∀ t ∈ available_seats,
      student.requirements.all (fun req => t.has_property req) = false)
    (hsome : ∃ t ∈ available_seats, 0 < matchCount student t) :
    ∃ s, AssignmentEngine.find_seat_for_student student available_seats previous_seat = some s ∧
      (∀ t ∈ available_seats, matchCount student t ≤ matchCount student s) ∧
      available_seats.find? (fun t => matchCount student t == matchCount student s) = some s := by
  obtain ⟨t0, ht0, h0pos⟩ := hsome
  have hemp : available_seats.isEmpty = false := by
    cases available_seats with
    | nil => cases ht0
    | cons a b => rfl
  have hreqb : (!student.requirements.isEmpty) = true := by
    cases hr : student.requirements with
    | nil => exact absurd hr hreq
    | cons a b => rfl
  have hfil : available_seats.filter (fun seat =>
      student.requirements.all (fun req => seat.has_property req)) = [] :=
    List.filter_eq_nil_iff.mpr (fun t ht => by simp [hnoperfect t ht])
  set partials := available_seats.filterMap (fun seat =>
      if 0 < matchCount student seat then some (matchCount student seat, seat) else none)
    with hpartials
  have hmem0 : (matchCount student t0, t0) ∈ partials := by
    rw [hpartials]
    exact List.mem_filterMap.mpr ⟨t0, ht0, by rw [if_pos h0pos]⟩
  obtain ⟨q, qs, hqqs⟩ : ∃ q qs, partials = q :: qs := by
    cases hp : partials with
    | nil => rw [hp] at hmem0; cases hmem0
    | cons q qs => exact ⟨q, qs, rfl⟩
  have hhead : (sortPairsDesc partials).head? = some (firstMaxPair q qs) := by
    rw [hqqs]; exact sortPairsDesc_head q qs
  obtain ⟨ps, hps⟩ : ∃ ps, sortPairsDesc partials = firstMaxPair q qs :: ps := by
    cases hs : sortPairsDesc partials with
    | nil => rw [hs] at hhead; cases hhead
    | cons p' ps' =>
      rw [hs] at hhead
      have hpf : p' = firstMaxPair q qs := by injection hhead
      exact ⟨ps', by rw [hpf]⟩
  have hfm_mem : firstMaxPair q qs ∈ partials := by
    rw [hqqs]; exact firstMaxPair_mem qs q
  rw [hpartials] at hfm_mem
  obtain ⟨s0, hs0mem, hs0eq⟩ := List.mem_filterMap.mp hfm_mem
  by_cases hs00 : 0 < matchCount student s0
  case neg => rw [if_neg hs00] at hs0eq; cases hs0eq
  case pos =>
  rw [if_pos hs00] at hs0eq
  have hfmeq : firstMaxPair q qs = (matchCount student s0, s0) := by
    injection hs0eq with h
    exact h.symm
  refine ⟨s0, ?_, ?_, ?_⟩
  · have hstep : AssignmentEngine.find_seat_for_student student available_seats previous_seat =
        AssignmentEngine.findSeatSearch student available_seats := by
      unfold AssignmentEngine.find_seat_for_student
      rw [hemp]
      simp only [Bool.false_eq_true, if_false]
      cases hpo : previous_seat with
      | none => simp
      | some p =>
        have hpc : available_seats.contains p = false := by simpa using hprev p hpo
        show (if available_seats.contains p = true then some p else
          AssignmentEngine.findSeatSearch student available_seats) =
          AssignmentEngine.findSeatSearch student available_seats
        rw [hpc]
        simp
    rw [hstep]
    simp only [AssignmentEngine.findSeatSearch]
    rw [if_pos hreqb, hfil]
    show (match sortPairsDesc partials with
      | p :: _ => some p.2
      | [] => available_seats.head?) = some s0
    rw [hps, hfmeq]
  · intro t ht
    by_cases htp : 0 < matchCount student t
    · have hmemt : (matchCount student t, t) ∈ partials := by
        rw [hpartials]
        exact List.mem_filterMap.mpr ⟨t, ht, by rw [if_pos htp]⟩
      have hle := firstMaxPair_max qs q (matchCount student t, t) (by rw [← hqqs]; exact hmemt)
      rw [hfmeq] at hle
      simpa using hle
    · omega
  · have hC := firstMaxPair_find qs q
    rw [← hqqs] at hC
    rw [hfmeq] at hC
    dsimp only at hC
    rw [hpartials] at hC
    have hF := filterMap_find_transfer student (matchCount student s0) hs00 available_seats
    rw [hC] at hF
    cases hfind : available_seats.find? (fun t =>
        matchCount student t == matchCount student s0) with
    | none => rw [hfind] at hF; cases hF
    | some t1 =>
      rw [hfind] at hF
      have hpair : (matchCount student s0, s0) = (matchCount student t1, t1) := by
        injection hF with h
      have hs0t1 : s0 = t1 := congrArg Prod.snd hpair
      rw [← hs0t1]

/-- Witness for C2: requirements near_window and wheelchair, three seats each
satisfying at most one; the first seat with the maximal count wins. -/
theorem C2_best_partial_match_witness :
    (⟨"st3", "Carol", [("monday", true)], "2025-01-01", "ongoing",
      ["near_window", "wheelchair"]⟩ : Student).requirements ≠ [] ∧
    ∃ s, AssignmentEngine.find_seat_for_student
        ⟨"st3", "Carol", [("monday", true)], "2025-01-01", "ongoing",
          ["near_window", "wheelchair"]⟩
        [⟨"s1", "r1", 1, 0, 0, []⟩, ⟨"s2", "r1", 2, 0, 0, [("near_window", true)]⟩,
         ⟨"s3", "r1", 3, 0, 0, [("wheelchair", true)]⟩] none = some s ∧
      (∀ t ∈ [(⟨"s1", "r1", 1, 0, 0, []⟩ : Seat),
          ⟨"s2", "r1", 2, 0, 0, [("near_window", true)]⟩,
          ⟨"s3", "r1", 3, 0, 0, [("wheelchair", true)]⟩],
        matchCount ⟨"st3", "Carol", [("monday", true)], "2025-01-01", "ongoing",
          ["near_window", "wheelchair"]⟩ t ≤
        matchCount ⟨"st3", "Carol", [("monday", true)], "2025-01-01", "ongoing",
          ["near_window", "wheelchair"]⟩ s) ∧
      ([(⟨"s1", "r1", 1, 0, 0, []⟩ : Seat),
        ⟨"s2", "r1", 2, 0, 0, [("near_window", true)]⟩,
        ⟨"s3", "r1", 3, 0, 0, [("wheelchair", true)]⟩].find? (fun t =>
          matchCount ⟨"st3", "Carol", [("monday", true)], "2025-01-01", "ongoing",
            ["near_window", "wheelchair"]⟩ t ==
          matchCount ⟨"st3", "Carol", [("monday", true)], "2025-01-01", "ongoing",
            ["near_window", "wheelchair"]⟩ s) = some s) :=
  ⟨by decide,
    C2_best_partial_match
      ⟨"st3", "Carol", [("monday", true)], "2025-01-01", "ongoing",
        ["near_window", "wheelchair"]⟩
      [⟨"s1", "r1", 1, 0, 0, []⟩, ⟨"s2", "r1", 2, 0, 0, [("near_window", true)]⟩,
       ⟨"s3", "r1", 3, 0, 0, [("wheelchair", true)]⟩] none
      (by decide) (fun p h => by cases h) (by decide) (by decide)⟩

/-! ### Assignment duplicate detection (claim C5) -/

theorem seatScan_mem (w d : String) :
    ∀ (g : List Assignment) (seen : List (String × String)) (c : ConflictRec),
      c ∈ seatScan w d seen g →
      c.ctype = "duplicate_seat" ∧ c.week = w ∧ c.day = d ∧
      ∃ b ∈ g, b.seat_id = c.dup_id ∧ ∃ s1, c.involved = [s1, b.student_id] ∧
        ((c.dup_id, s1) ∈ seen ∨ ∃ a ∈ g, a.seat_id = c.dup_id ∧ a.student_id = s1) := by
  intro g
  induction g with
  | nil => intro seen c hc; cases hc
  | cons a rest ih =>
    intro seen c hc
    cases hfind : seen.find? (fun p => p.1 == a.seat_id) with
    | some p =>
      simp only [seatScan, hfind] at hc
      rcases List.mem_cons.mp hc with rfl | hc'
      · refine ⟨rfl, rfl, rfl, a, List.mem_cons_self _ _, rfl, p.2, rfl, Or.inl ?_⟩
        have hp1 : p.1 = a.seat_id := by simpa using List.find?_some hfind
        have hpm : p ∈ seen := List.mem_of_find?_eq_some hfind
        rw [← hp1]
        simpa using hpm
      · obtain ⟨h1, h2, h3, b, hb, hbid, s1, hinv, hdisj⟩ := ih seen c hc'
        refine ⟨h1, h2, h3, b, List.mem_cons_of_mem a hb, hbid, s1, hinv, ?_⟩
        rcases hdisj with hseen | ⟨a', ha', hrest⟩
        · exact Or.inl hseen
        · exact Or.inr ⟨a', List.mem_cons_of_mem a ha', hrest⟩
    | none =>
      simp only [seatScan, hfind] at hc
      obtain ⟨h1, h2, h3, b, hb, hbid, s1, hinv, hdisj⟩ :=
        ih ((a.seat_id, a.student_id) :: seen) c hc
      refine ⟨h1, h2, h3, b, List.mem_cons_of_mem a hb, hbid, s1, hinv, ?_⟩
      rcases hdisj with hseen | ⟨a', ha', hrest⟩
      · rcases List.mem_cons.mp hseen with heq | hseen'
        · obtain ⟨e1, e2⟩ := Prod.mk.injEq .. ▸ heq
          exact Or.inr ⟨a, List.mem_cons_self _ _, e1.symm, e2.symm⟩
        · exact Or.inl hseen'
      · exact Or.inr ⟨a', List.mem_cons_of_mem a ha', hrest⟩

theorem studentScan_mem (w d : String) :
    ∀ (g : List Assignment) (seen : List (String × String)) (c : ConflictRec),
      c ∈ studentScan w d seen g →
      c.ctype = "duplicate_student" ∧ c.week = w ∧ c.day = d ∧
      ∃ b ∈ g, b.student_id = c.dup_id ∧ ∃ s1, c.involved = [s1, b.seat_id] ∧
        ((c.dup_id, s1) ∈ seen ∨ ∃ a ∈ g, a.student_id = c.dup_id ∧ a.seat_id = s1) := by
  intro g
  induction g with
  | nil => intro seen c hc; cases hc
  | cons a rest ih =>
    intro seen c hc
    cases hfind : seen.find? (fun p => p.1 == a.student_id) with
    | some p =>
      simp only [studentScan, hfind] at hc
      rcases List.mem_cons.mp hc with rfl | hc'
      · refine ⟨rfl, rfl, rfl, a, List.mem_cons_self _ _, rfl, p.2, rfl, Or.inl ?_⟩
        have hp1 : p.1 = a.student_id := by simpa using List.find?_some hfind
        have hpm : p ∈ seen := List.mem_of_find?_eq_some hfind
        rw [← hp1]
        simpa using hpm
      · obtain ⟨h1, h2, h3, b, hb, hbid, s1, hinv, hdisj⟩ := ih seen c hc'
        refine ⟨h1, h2, h3, b, List.mem_cons_of_mem a hb, hbid, s1, hinv, ?_⟩
        rcases hdisj with hseen | ⟨a', ha', hrest⟩
        · exact Or.inl hseen
        · exact Or.inr ⟨a', List.mem_cons_of_mem a ha', hrest⟩
    | none =>
      simp only [studentScan, hfind] at hc
      obtain ⟨h1, h2, h3, b, hb, hbid, s1, hinv, hdisj⟩ :=
        ih ((a.student_id, a.seat_id) :: seen) c hc
      refine ⟨h1, h2, h3, b, List.mem_cons_of_mem a hb, hbid, s1, hinv, ?_⟩
      rcases hdisj with hseen | ⟨a', ha', hrest⟩
      · rcases List.mem_cons.mp hseen with heq | hseen'
        · obtain ⟨e1, e2⟩ := Prod.mk.injEq .. ▸ heq
          exact Or.inr ⟨a, List.mem_cons_self _ _, e1.symm, e2.symm⟩
        · exact Or.inl hseen'
      · exact Or.inr ⟨a', List.mem_cons_of_mem a ha', hrest⟩

theorem seatScan_count (w d x : String) :
    ∀ (g : List Assignment) (seen : List (String × String)),
      ((seatScan w d seen g).filter (fun c => c.dup_id == x)).length =
        if (seen.find? (fun p => p.1 == x)).isSome then
          (g.map (fun a => a.seat_id)).count x
        else (g.map (fun a => a.seat_id)).count x - 1 := by
  intro g
  induction g with
  | nil =>
    intro seen
    simp only [seatScan, List.filter_nil, List.length_nil, List.map_nil, List.count_nil]
    split <;> rfl
  | cons a rest ih =>
    intro seen
    by_cases hx : a.seat_id = x
    · subst hx
      cases hfind : seen.find? (fun p => p.1 == a.seat_id) with
      | some p =>
        simp only [seatScan, hfind]
        rw [List.filter_cons_of_pos (by simp), List.length_cons, ih seen]
        simp only [hfind, Option.isSome_some, if_true, List.map_cons]
        rw [List.count_cons_self]
      | none =>
        simp only [seatScan, hfind]
        rw [ih ((a.seat_id, a.student_id) :: seen)]
        have hhead : (((a.seat_id, a.student_id) :: seen).find?
            (fun p => p.1 == a.seat_id)).isSome := by
          rw [List.find?_cons_of_pos _ (by simp)]
          rfl
        simp only [hhead, if_true, hfind, Option.isSome_none, Bool.false_eq_true, if_false,
          List.map_cons]
        rw [List.count_cons_self]
        omega
    · cases hfind : seen.find? (fun p => p.1 == a.seat_id) with
      | some p =>
        simp only [seatScan, hfind]
        rw [List.filter_cons_of_neg (by simpa using hx), ih seen, List.map_cons,
          List.count_cons_of_ne (by simpa using fun he => hx he.symm)]
      | none =>
        simp only [seatScan, hfind]
        rw [ih ((a.seat_id, a.student_id) :: seen)]
        have hhead : ((a.seat_id, a.student_id) :: seen).find? (fun p => p.1 == x) =
            seen.find? (fun p => p.1 == x) :=
          List.find?_cons_of_neg _ (by simpa using hx)
        rw [hhead, List.map_cons, List.count_cons_of_ne (by simpa using fun he => hx he.symm)]

theorem studentScan_count (w d x : String) :
    ∀ (g : List Assignment) (seen : List (String × String)),
      ((studentScan w d seen g).filter (fun c => c.dup_id == x)).length =
        if (seen.find? (fun p => p.1 == x)).isSome then
          (g.map (fun a => a.student_id)).count x
        else (g.map (fun a => a.student_id)).count x - 1 := by
  intro g
  induction g with
  | nil =>
    intro seen
    simp only [studentScan, List.filter_nil, List.length_nil, List.map_nil, List.count_nil]
    split <;> rfl
  | cons a rest ih =>
    intro seen
    by_cases hx : a.student_id = x
    · subst hx
      cases hfind : seen.find? (fun p => p.1 == a.student_id) with
      | some p =>
        simp only [studentScan, hfind]
        rw [List.filter_cons_of_pos (by simp), List.length_cons, ih seen]
        simp only [hfind, Option.isSome_some, if_true, List.map_cons]
        rw [List.count_cons_self]
      | none =>
        simp only [studentScan, hfind]
        rw [ih ((a.student_id, a.seat_id) :: seen)]
        have hhead : (((a.student_id, a.seat_id) :: seen).find?
            (fun p => p.1 == a.student_id)).isSome := by
          rw [List.find?_cons_of_pos _ (by simp)]
          rfl
        simp only [hhead, if_true, hfind, Option.isSome_none, Bool.false_eq_true, if_false,
          List.map_cons]
        rw [List.count_cons_self]
        omega
    · cases hfind : seen.find? (fun p => p.1 == a.student_id) with
      | some p =>
        simp only [studentScan, hfind]
        rw [List.filter_cons_of_neg (by simpa using hx), ih seen, List.map_cons,
          List.count_cons_of_ne (by simpa using fun he => hx he.symm)]
      | none =>
        simp only [studentScan, hfind]
        rw [ih ((a.student_id, a.seat_id) :: seen)]
        have hhead : ((a.student_id, a.seat_id) :: seen).find? (fun p => p.1 == x) =
            seen.find? (fun p => p.1 == x) :=
          List.find?_cons_of_neg _ (by simpa using hx)
        rw [hhead, List.map_cons, List.count_cons_of_ne (by simpa using fun he => hx he.symm)]

theorem seatScan_nil_of_nodup (w d : String) :
    ∀ (g : List Assignment) (seen : List (String × String)),
      (g.map (fun a => a.seat_id)).Nodup →
      (∀ a ∈ g, seen.find? (fun p => p.1 == a.seat_id) = none) →
      seatScan w d seen g = [] := by
  intro g
  induction g with
  | nil => intro seen _ _; rfl
  | cons a rest ih =>
    intro seen hnd hdis
    rw [List.map_cons, List.nodup_cons] at hnd
    have hfind := hdis a (List.mem_cons_self _ _)
    simp only [seatScan, hfind]
    apply ih
    · exact hnd.2
    · intro b hb
      have hbne : a.seat_id ≠ b.seat_id :=
        fun he => hnd.1 (he ▸ List.mem_map_of_mem _ hb)
      rw [List.find?_cons_of_neg _ (by simpa using hbne)]
      exact hdis b (List.mem_cons_of_mem a hb)

theorem studentScan_nil_of_nodup (w d : String) :
    ∀ (g : List Assignment) (seen : List (String × String)),
      (g.map (fun a => a.student_id)).Nodup →
      (∀ a ∈ g, seen.find? (fun p => p.1 == a.student_id) = none) →
      studentScan w d seen g = [] := by
  intro g
  induction g with
  | nil => intro seen _ _; rfl
  | cons a rest ih =>
    intro seen hnd hdis
    rw [List.map_cons, List.nodup_cons] at hnd
    have hfind := hdis a (List.mem_cons_self _ _)
    simp only [studentScan, hfind]
    apply ih
    · exact hnd.2
    · intro b hb
      have hbne : a.student_id ≠ b.student_id :=
        fun he => hnd.1 (he ▸ List.mem_map_of_mem _ hb)
      rw [List.find?_cons_of_neg _ (by simpa using hbne)]
      exact hdis b (List.mem_cons_of_mem a hb)

theorem groupKeys_foldl_mem :
    ∀ (l : List Assignment) (ks : List (String × String)),
      (∀ k ∈ ks, k ∈ l.foldl (fun ks a =>
        if (a.week, a.day) ∈ ks then ks else ks ++ [(a.week, a.day)]) ks)
      ∧ ∀ a ∈ l, (a.week, a.day) ∈ l.foldl (fun ks a =>
        if (a.week, a.day) ∈ ks then ks else ks ++ [(a.week, a.day)]) ks := by
  intro l
  induction l with
  | nil => intro ks; exact ⟨fun k hk => hk, fun a ha => absurd ha (List.not_mem_nil a)⟩
  | cons a rest ih =>
    intro ks
    constructor
    · intro k hk
      rw [List.foldl_cons]
      apply (ih _).1
      by_cases h : (a.week, a.day) ∈ ks
      · rw [if_pos h]; exact hk
      · rw [if_neg h]; exact List.mem_append_left _ hk
    · intro b hb
      rw [List.foldl_cons]
      rcases List.mem_cons.mp hb with rfl | hb'
      · apply (ih _).1
        by_cases h : (b.week, b.day) ∈ ks
        · rw [if_pos h]; exact h
        · rw [if_neg h]; exact List.mem_append_right _ (List.mem_singleton.mpr rfl)
      · exact (ih _).2 b hb'

theorem mem_groupKeys (l : List Assignment) (a : Assignment) (ha : a ∈ l) :
    (a.week, a.day) ∈ groupKeys l :=
  (groupKeys_foldl_mem l []).2 a ha

theorem groupKeys_foldl_nodup :
    ∀ (l : List Assignment) (ks : List (String × String)), ks.Nodup →
      (l.foldl (fun ks a =>
        if (a.week, a.day) ∈ ks then ks else ks ++ [(a.week, a.day)]) ks).Nodup := by
  intro l
  induction l with
  | nil => intro ks h; exact h
  | cons a rest ih =>
    intro ks hnd
    rw [List.foldl_cons]
    apply ih
    by_cases h : (a.week, a.day) ∈ ks
    · rw [if_pos h]; exact hnd
    · rw [if_neg h]
      exact ((List.perm_append_singleton _ ks).nodup_iff).mpr (List.nodup_cons.mpr ⟨h, hnd⟩)

theorem groupKeys_nodup (l : List Assignment) : (groupKeys l).Nodup :=
  groupKeys_foldl_nodup l [] List.nodup_nil

theorem groupOf_eq_nil (l : List Assignment) (k : String × String)
    (h : k ∉ groupKeys l) : groupOf l k = [] := by
  apply List.filter_eq_nil_iff.mpr
  intro a ha hak
  apply h
  have : (a.week, a.day) = k := by simpa using hak
  rw [← this]
  exact mem_groupKeys l a ha

theorem length_filter_flatten_map {α β : Type} (p : α → Bool) (f : β → List α) :
    ∀ ks : List β,
      (((ks.map f).flatten).filter p).length =
        (ks.map (fun k => ((f k).filter p).length)).sum := by
  intro ks
  induction ks with
  | nil => rfl
  | cons k rest ih =>
    simp only [List.map_cons, List.flatten_cons, List.filter_append, List.length_append,
      List.sum_cons, ih]

theorem sum_single_key {β : Type} [DecidableEq β] (f : β → Nat) (k0 : β) (n : Nat)
    (hf : ∀ k, k ≠ k0 → f k = 0) (hk0 : f k0 = n) :
    ∀ ks : List β, ks.Nodup → k0 ∈ ks → (ks.map f).sum = n := by
  intro ks
  induction ks with
  | nil => intro _ h; cases h
  | cons k rest ih =>
    intro hnd hmem
    rw [List.nodup_cons] at hnd
    rcases List.mem_cons.mp hmem with rfl | hmem'
    · simp only [List.map_cons, List.sum_cons, hk0]
      have hz : (rest.map f).sum = 0 := by
        apply List.sum_eq_zero
        intro y hy
        obtain ⟨k', hk', rfl⟩ := List.mem_map.mp hy
        exact hf k' (fun he => hnd.1 (he ▸ hk'))
      omega
    · have hkne : k ≠ k0 := fun he => hnd.1 (he ▸ hmem')
      simp only [List.map_cons, List.sum_cons, hf k hkne]
      rw [ih hnd.2 hmem']
      omega

theorem flatten_nil_of_all_nil {α : Type} :
    ∀ ll : List (List α), (∀ s ∈ ll, s = []) → ll.flatten = [] := by
  intro ll
  induction ll with
  | nil => intro _; rfl
  | cons g gs ih =>
    intro h
    rw [List.flatten_cons, h g (List.mem_cons_self _ _), ih (fun s hs =>
      h s (List.mem_cons_of_mem g hs)), List.nil_append]

theorem seat_pred_key_length (l : List Assignment) (w d x : String) (k : String × String) :
    ((seatScan k.1 k.2 [] (groupOf l k) ++ studentScan k.1 k.2 [] (groupOf l k)).filter
      (fun c => c.ctype == "duplicate_seat" && c.week == w && c.day == d &&
        c.dup_id == x)).length =
    if k = (w, d) then ((groupOf l (w, d)).map (fun a => a.seat_id)).count x - 1 else 0 := by
  obtain ⟨kw, kd⟩ := k
  rw [List.filter_append, List.length_append]
  have hstud0 : (studentScan (kw, kd).1 (kw, kd).2 [] (groupOf l (kw, kd))).filter
      (fun c => c.ctype == "duplicate_seat" && c.week == w && c.day == d &&
        c.dup_id == x) = [] := by
    apply List.filter_eq_nil_iff.mpr
    intro c hcmem
    obtain ⟨h1, -⟩ := studentScan_mem (kw, kd).1 (kw, kd).2 (groupOf l (kw, kd)) [] c hcmem
    simp [h1, show ("duplicate_student" == "duplicate_seat") = false from by decide]
  rw [hstud0]
  by_cases hk : (kw, kd) = (w, d)
  · obtain ⟨e1, e2⟩ := Prod.mk.injEq .. ▸ hk
    subst e1
    subst e2
    rw [if_pos rfl]
    have hcong : (seatScan (kw, kd).1 (kw, kd).2 [] (groupOf l (kw, kd))).filter
        (fun c => c.ctype == "duplicate_seat" && c.week == kw && c.day == kd &&
          c.dup_id == x) =
        (seatScan (kw, kd).1 (kw, kd).2 [] (groupOf l (kw, kd))).filter
          (fun c => c.dup_id == x) := by
      apply List.filter_congr
      intro c hcmem
      obtain ⟨h1, h2, h3, -⟩ :=
        seatScan_mem (kw, kd).1 (kw, kd).2 (groupOf l (kw, kd)) [] c hcmem
      simp [h1, h2, h3]
    rw [hcong, seatScan_count (kw, kd).1 (kw, kd).2 x (groupOf l (kw, kd)) []]
    simp
  · rw [if_neg hk]
    have hne : kw ≠ w ∨ kd ≠ d := not_and_or.mp (by simpa [Prod.mk.injEq] using hk)
    have h0 : (seatScan (kw, kd).1 (kw, kd).2 [] (groupOf l (kw, kd))).filter
        (fun c => c.ctype == "duplicate_seat" && c.week == w && c.day == d &&
          c.dup_id == x) = [] := by
      apply List.filter_eq_nil_iff.mpr
      intro c hcmem
      obtain ⟨h1, h2, h3, -⟩ :=
        seatScan_mem (kw, kd).1 (kw, kd).2 (groupOf l (kw, kd)) [] c hcmem
      rcases hne with hnn | hnn
      · simp [h2, hnn]
      · simp [h3, hnn]
    rw [h0]
    rfl

theorem student_pred_key_length (l : List Assignment) (w d x : String) (k : String × String) :
    ((seatScan k.1 k.2 [] (groupOf l k) ++ studentScan k.1 k.2 [] (groupOf l k)).filter
      (fun c => c.ctype == "duplicate_student" && c.week == w && c.day == d &&
        c.dup_id == x)).length =
    if k = (w, d) then ((groupOf l (w, d)).map (fun a => a.student_id)).count x - 1 else 0 := by
  obtain ⟨kw, kd⟩ := k
  rw [List.filter_append, List.length_append]
  have hseat0 : (seatScan (kw, kd).1 (kw, kd).2 [] (groupOf l (kw, kd))).filter
      (fun c => c.ctype == "duplicate_student" && c.week == w && c.day == d &&
        c.dup_id == x) = [] := by
    apply List.filter_eq_nil_iff.mpr
    intro c hcmem
    obtain ⟨h1, -⟩ := seatScan_mem (kw, kd).1 (kw, kd).2 (groupOf l (kw, kd)) [] c hcmem
    simp [h1, show ("duplicate_seat" == "duplicate_student") = false from by decide]
  rw [hseat0]
  by_cases hk : (kw, kd) = (w, d)
  · obtain ⟨e1, e2⟩ := Prod.mk.injEq .. ▸ hk
    subst e1
    subst e2
    rw [if_pos rfl]
    have hcong : (studentScan (kw, kd).1 (kw, kd).2 [] (groupOf l (kw, kd))).filter
        (fun c => c.ctype == "duplicate_student" && c.week == kw && c.day == kd &&
          c.dup_id == x) =
        (studentScan (kw, kd).1 (kw, kd).2 [] (groupOf l (kw, kd))).filter
          (fun c => c.dup_id == x) := by
      apply List.filter_congr
      intro c hcmem
      obtain ⟨h1, h2, h3, -⟩ :=
        studentScan_mem (kw, kd).1 (kw, kd).2 (groupOf l (kw, kd)) [] c hcmem
      simp [h1, h2, h3]
    rw [hcong, studentScan_count (kw, kd).1 (kw, kd).2 x (groupOf l (kw, kd)) []]
    simp
  · rw [if_neg hk]
    have hne : kw ≠ w ∨ kd ≠ d := not_and_or.mp (by simpa [Prod.mk.injEq] using hk)
    have h0 : (studentScan (kw, kd).1 (kw, kd).2 [] (groupOf l (kw, kd))).filter
        (fun c => c.ctype == "duplicate_student" && c.week == w && c.day == d &&
          c.dup_id == x) = [] := by
      apply List.filter_eq_nil_iff.mpr
      intro c hcmem
      obtain ⟨h1, h2, h3, -⟩ :=
        studentScan_mem (kw, kd).1 (kw, kd).2 (groupOf l (kw, kd)) [] c hcmem
      rcases hne with hnn | hnn
      · simp [h2, hnn]
      · simp [h3, hnn]
    rw [h0]
    simp

/-- Claim C5: `validate_assignment_conflicts` groups by `(week, day)`; within
a group each occurrence of a seat id (resp. student id) after its first
produces exactly one `duplicate_seat` (resp. `duplicate_student`) conflict
(counted here as occurrences minus one, per recurring id); each conflict
reports the recurring id together with the pair of student ids (resp. seat
ids) involved; and assignments that only share ids across different weeks or
days (all groups duplicate-free) produce no conflict at all. -/
theorem C5_duplicate_conflict_detection (l : List Assignment) :
    (∀ w d x, ((Validator.validate_assignment_conflicts l).filter (fun c =>
        c.ctype == "duplicate_seat" && c.week == w && c.day == d && c.dup_id == x)).length =
      ((groupOf l (w, d)).map (fun a => a.seat_id)).count x - 1)
    ∧ (∀ w d x, ((Validator.validate_assignment_conflicts l).filter (fun c =>
        c.ctype == "duplicate_student" && c.week == w && c.day == d && c.dup_id == x)).length =
      ((groupOf l (w, d)).map (fun a => a.student_id)).count x - 1)
    ∧ ((∀ k : String × String, ((groupOf l k).map (fun a => a.seat_id)).Nodup ∧
          ((groupOf l k).map (fun a => a.student_id)).Nodup) →
        Validator.validate_assignment_conflicts l = [])
    ∧ (∀ c ∈ Validator.validate_assignment_conflicts l,
        (c.ctype = "duplicate_seat" ∨ c.ctype = "duplicate_student")
        ∧ (c.ctype = "duplicate_seat" →
            ∃ a ∈ groupOf l (c.week, c.day), ∃ b ∈ groupOf l (c.week, c.day),
              a.seat_id = c.dup_id ∧ b.seat_id = c.dup_id ∧
              c.involved = [a.student_id, b.student_id])
        ∧ (c.ctype = "duplicate_student" →
            ∃ a ∈ groupOf l (c.week, c.day), ∃ b ∈ groupOf l (c.week, c.day),
              a.student_id = c.dup_id ∧ b.student_id = c.dup_id ∧
              c.involved = [a.seat_id, b.seat_id])) := by
  have hval : Validator.validate_assignment_conflicts l =
      ((groupKeys l).map (fun k => seatScan k.1 k.2 [] (groupOf l k) ++
        studentScan k.1 k.2 [] (groupOf l k))).flatten := rfl
  refine ⟨?_, ?_, ?_, ?_⟩
  · intro w d x
    rw [hval, length_filter_flatten_map]
    by_cases hmem : (w, d) ∈ groupKeys l
    · exact sum_single_key _ (w, d) _
        (fun k hk => (seat_pred_key_length l w d x k).trans (if_neg hk))
        ((seat_pred_key_length l w d x (w, d)).trans (if_pos rfl))
        (groupKeys l) (groupKeys_nodup l) hmem
    · have hz : ((groupKeys l).map (fun k =>
          ((seatScan k.1 k.2 [] (groupOf l k) ++ studentScan k.1 k.2 [] (groupOf l k)).filter
            (fun c => c.ctype == "duplicate_seat" && c.week == w && c.day == d &&
              c.dup_id == x)).length)).sum = 0 := by
        apply List.sum_eq_zero
        intro y hy
        obtain ⟨k, hk, rfl⟩ := List.mem_map.mp hy
        exact (seat_pred_key_length l w d x k).trans
          (if_neg (fun (he : k = (w, d)) => hmem (he ▸ hk)))
      rw [hz, groupOf_eq_nil l (w, d) hmem]
      simp
  · intro w d x
    rw [hval, length_filter_flatten_map]
    by_cases hmem : (w, d) ∈ groupKeys l
    · exact sum_single_key _ (w, d) _
        (fun k hk => (student_pred_key_length l w d x k).trans (if_neg hk))
        ((student_pred_key_length l w d x (w, d)).trans (if_pos rfl))
        (groupKeys l) (groupKeys_nodup l) hmem
    · have hz : ((groupKeys l).map (fun k =>
          ((seatScan k.1 k.2 [] (groupOf l k) ++ studentScan k.1 k.2 [] (groupOf l k)).filter
            (fun c => c.ctype == "duplicate_student" && c.week == w && c.day == d &&
              c.dup_id == x)).length)).sum = 0 := by
        apply List.sum_eq_zero
        intro y hy
        obtain ⟨k, hk, rfl⟩ := List.mem_map.mp hy
        exact (student_pred_key_length l w d x k).trans
          (if_neg (fun (he : k = (w, d)) => hmem (he ▸ hk)))
      rw [hz, groupOf_eq_nil l (w, d) hmem]
      simp
  · intro hnod
    rw [hval]
    apply flatten_nil_of_all_nil
    intro s hs
    obtain ⟨k, hk, rfl⟩ := List.mem_map.mp hs
    rw [seatScan_nil_of_nodup k.1 k.2 (groupOf l k) [] (hnod k).1 (fun a _ => rfl),
      studentScan_nil_of_nodup k.1 k.2 (groupOf l k) [] (hnod k).2 (fun a _ => rfl)]
    rfl
  · intro c hc
    rw [hval] at hc
    obtain ⟨s, hs, hcs⟩ := List.mem_flatten.mp hc
    obtain ⟨k, hk, rfl⟩ := List.mem_map.mp hs
    rcases List.mem_append.mp hcs with hscan | hscan
    · obtain ⟨h1, h2, h3, b, hb, hbid, s1, hinv, hdisj⟩ :=
        seatScan_mem k.1 k.2 (groupOf l k) [] c hscan
      rcases hdisj with habs | ⟨a, ha, haid, hastu⟩
      · cases habs
      · have hkey : (c.week, c.day) = k := by rw [h2, h3]
        refine ⟨Or.inl h1, ?_, ?_⟩
        · intro _
          rw [hkey]
          exact ⟨a, ha, b, hb, haid, hbid, by rw [hinv, hastu]⟩
        · intro hcon
          rw [h1] at hcon
          exact absurd hcon (by decide)
    · obtain ⟨h1, h2, h3, b, hb, hbid, s1, hinv, hdisj⟩ :=
        studentScan_mem k.1 k.2 (groupOf l k) [] c hscan
      rcases hdisj with habs | ⟨a, ha, haid, hastu⟩
      · cases habs
      · have hkey : (c.week, c.day) = k := by rw [h2, h3]
        refine ⟨Or.inr h1, ?_, ?_⟩
        · intro hcon
          rw [h1] at hcon
          exact absurd hcon (by decide)
        · intro _
          rw [hkey]
          exact ⟨a, ha, b, hb, haid, hbid, by rw [hinv, hastu]⟩

/-- Witness for C5: two assignments with distinct seats and students on the
same day yield no conflict. -/
theorem C5_duplicate_conflict_detection_witness :
    Validator.validate_assignment_conflicts
      [⟨"st1", "seat1", "monday", "W43"⟩, ⟨"st2", "seat2", "monday", "W43"⟩] = [] := by
  apply (C5_duplicate_conflict_detection
    [⟨"st1", "seat1", "monday", "W43"⟩, ⟨"st2", "seat2", "monday", "W43"⟩]).2.2.1
  intro k
  constructor
  · have hnd : (([⟨"st1", "seat1", "monday", "W43"⟩,
        ⟨"st2", "seat2", "monday", "W43"⟩] : List Assignment).map
          (fun a => a.seat_id)).Nodup := by decide
    have hsub : List.Sublist
        ((groupOf [⟨"st1", "seat1", "monday", "W43"⟩,
          ⟨"st2", "seat2", "monday", "W43"⟩] k).map (fun a => a.seat_id))
        (([⟨"st1", "seat1", "monday", "W43"⟩,
          ⟨"st2", "seat2", "monday", "W43"⟩] : List Assignment).map (fun a => a.seat_id)) := by
      unfold groupOf
      exact (List.filter_sublist _).map _
    exact hnd.sublist hsub
  · have hnd : (([⟨"st1", "seat1", "monday", "W43"⟩,
        ⟨"st2", "seat2", "monday", "W43"⟩] : List Assignment).map
          (fun a => a.student_id)).Nodup := by decide
    have hsub : List.Sublist
        ((groupOf [⟨"st1", "seat1", "monday", "W43"⟩,
          ⟨"st2", "seat2", "monday", "W43"⟩] k).map (fun a => a.student_id))
        (([⟨"st1", "seat1", "monday", "W43"⟩,
          ⟨"st2", "seat2", "monday", "W43"⟩] : List Assignment).map (fun a => a.student_id)) := by
      unfold groupOf
      exact (List.filter_sublist _).map _
    exact hnd.sublist hsub

/-! ### Statistics rates (claim C6) -/

theorem round2_zero : round2 0 = 0 := by
  norm_num [round2, pyRound]

/-- Counterexample to C6 as stated: one assignment and three seats give an
exact occupancy of 100/21, but the returned value is rounded to two
decimals (4.76), so it does not equal `total_assignments / (len(seats) * 7)
* 100`. -/
theorem C6_counterexample :
    (AssignmentEngine.get_assignment_statistics
      [("monday", [⟨"st1", "s1", "monday", "W43"⟩])] [] []
      [⟨"s1", "r1", 1, 0, 0, []⟩, ⟨"s2", "r1", 2, 0, 0, []⟩,
       ⟨"s3", "r1", 3, 0, 0, []⟩]).occupancy_rate ≠ ((1 : Rat) / (3 * 7)) * 100 := by
  have hfl : ⌊(10000 : Rat)/21⌋ = 476 := by
    rw [Int.floor_eq_iff]
    norm_num
  simp only [AssignmentEngine.get_assignment_statistics, round2, pyRound]
  norm_num

/-- Amended C6: the returned `occupancy_rate` equals the claim's formula
rounded to two decimals (and is 0 when seats is empty); the returned
`conflict_rate` equals the claim's formula rounded to two decimals (and is 0
when there are no student-days). -/
theorem C6_statistics_rates (assignments : List (String × List Assignment))
    (conflicts : List (String × List String)) (students : List Student)
    (seats : List Seat) :
    ((AssignmentEngine.get_assignment_statistics assignments conflicts students
        seats).occupancy_rate =
      round2 (if seats.length = 0 then 0 else
        ((((assignments.map (fun p => p.2.length)).sum : Nat) : Rat) /
          ((seats.length * 7 : Nat) : Rat)) * 100))
    ∧ (seats = [] →
        (AssignmentEngine.get_assignment_statistics assignments conflicts students
          seats).occupancy_rate = 0)
    ∧ ((AssignmentEngine.get_assignment_statistics assignments conflicts students
        seats).conflict_rate =
      round2 (if (students.map (fun s =>
            (weekDayNames.filter (fun d => s.is_available_on d)).length)).sum = 0 then 0
        else ((((conflicts.map (fun p => p.2.length)).sum : Nat) : Rat) /
          (((students.map (fun s =>
            (weekDayNames.filter (fun d => s.is_available_on d)).length)).sum : Nat) : Rat))
          * 100))
    ∧ ((students.map (fun s =>
          (weekDayNames.filter (fun d => s.is_available_on d)).length)).sum = 0 →
        (AssignmentEngine.get_assignment_statistics assignments conflicts students
          seats).conflict_rate = 0) := by
  refine ⟨?_, ?_, ?_, ?_⟩
  · dsimp only [AssignmentEngine.get_assignment_statistics]
    apply congrArg round2
    by_cases h : seats.length = 0
    · rw [if_pos h, if_neg (by omega)]
    · rw [if_neg h, if_pos (by omega)]
  · rintro rfl
    dsimp only [AssignmentEngine.get_assignment_statistics]
    rw [if_neg (by simp)]
    exact round2_zero
  · dsimp only [AssignmentEngine.get_assignment_statistics]
    apply congrArg round2
    by_cases h : (students.map (fun s =>
        (weekDayNames.filter (fun d => s.is_available_on d)).length)).sum = 0
    · rw [if_pos h, if_neg (by omega)]
    · rw [if_neg h, if_pos (by omega)]
  · intro h
    dsimp only [AssignmentEngine.get_assignment_statistics]
    rw [if_neg (by omega)]
    exact round2_zero

/-- Witness for the amended C6: empty inputs give a zero occupancy rate. -/
theorem C6_statistics_rates_witness :
    (AssignmentEngine.get_assignment_statistics [] [] [] []).occupancy_rate = 0 :=
  (C6_statistics_rates [] [] [] []).2.1 rfl
